import Mathlib

/-!
Verification development for the clonado web-cloning pipeline.

The Python sources under `app/` are shallowly embedded here:
* byte payloads become `List Nat` (each element a byte value),
* decoded text becomes `List Char`,
* the per-job harvester state (dedup set, written files, fetch attempts)
  becomes the explicit `St` record threaded through the pipeline functions,
* the network is an oracle `String → Option (List Nat)` (`none` models a
  timeout, connection error or non-200 status, see `fetch_content`),
* external libraries (Pillow, csscompressor, the md5 digest and the in-place
  optimizers) are abstracted as explicit parameters of the model, never used
  in a way that decides a claim.
-/

namespace Clonado

/-! ## Byte and character helpers -/

/-- ASCII whitespace bytes, the set stripped by Python `bytes.lstrip()`. -/
def isWsByte (b : Nat) : Bool :=
  b = 9 || b = 10 || b = 11 || b = 12 || b = 13 || b = 32

/-- Python `str` whitespace (the ASCII and Latin-1 part; rarer Unicode
space characters are not produced by any construction in this model). -/
def isPySpace (c : Char) : Bool :=
  c = ' ' || c = '\t' || c = '\n' || c.toNat = 11 || c.toNat = 12 || c = '\r' ||
  (28 ≤ c.toNat && c.toNat ≤ 31) || c.toNat = 133 || c.toNat = 160

/-- ASCII lower-casing of one byte, as done by Python `bytes.lower()`. -/
def byteLower (b : Nat) : Nat :=
  if 65 ≤ b && b ≤ 90 then b + 32 else b

/-- ASCII lower-casing of one character (model of Python `str.lower()`;
only ASCII letters arise in the signatures this file reasons about). -/
def charLower (c : Char) : Char :=
  if 'A' ≤ c && c ≤ 'Z' then Char.ofNat (c.toNat + 32) else c

/-- Lower-case a character list. -/
def lowerChars (l : List Char) : List Char := l.map charLower

/-- The byte content of an ASCII string literal. -/
def strBytes (s : String) : List Nat := s.toList.map Char.toNat

/-- Whether `needle` occurs as a contiguous run inside `hay`
(Python's `needle in hay`). -/
def subIn {α : Type} [BEq α] : List α → List α → Bool
  | n, [] => n.isEmpty
  | n, c :: cs => n.isPrefixOf (c :: cs) || subIn n cs

/-- Python `str.strip()`: drop leading and trailing whitespace. -/
def pyStripChars (l : List Char) : List Char :=
  ((l.dropWhile isPySpace).reverse.dropWhile isPySpace).reverse

/-- Python `str.strip()` on a `String`. -/
def pyStripStr (s : String) : String := ⟨pyStripChars s.toList⟩

/-! ## UTF-8 decoding with errors ignored

Model of `bytes.decode("utf-8", errors="ignore")`: decode one scalar at a
time, skipping the offending bytes of an invalid sequence exactly the way
CPython's `ignore` error handler does. -/

/-- Is `c` a UTF-8 continuation byte. -/
def utf8Cont (c : Nat) : Bool := 128 ≤ c && c ≤ 191

/-- Decode one non-trivial UTF-8 sequence whose lead byte is `b` and whose
following bytes are `rest`; return the decoded scalar (or `none` when the
sequence is invalid and its bytes are dropped) and the undecoded remainder. -/
def utf8Step (b : Nat) (rest : List Nat) : Option Char × List Nat :=
  if b < 128 then (some (Char.ofNat b), rest)
  else if b < 194 then (none, rest)
  else if b ≤ 223 then
    match rest with
    | [] => (none, [])
    | c :: r =>
      if utf8Cont c then (some (Char.ofNat ((b - 192) * 64 + (c - 128))), r)
      else (none, c :: r)
  else if b ≤ 239 then
    match rest with
    | [] => (none, [])
    | c :: r2 =>
      if ((if b = 224 then 160 else 128) ≤ c && c ≤ (if b = 237 then 159 else 191)) then
        match r2 with
        | [] => (none, [])
        | d :: r3 =>
          if utf8Cont d then
            (some (Char.ofNat ((b - 224) * 4096 + (c - 128) * 64 + (d - 128))), r3)
          else (none, d :: r3)
      else (none, c :: r2)
  else if b ≤ 244 then
    match rest with
    | [] => (none, [])
    | c :: r2 =>
      if ((if b = 240 then 144 else 128) ≤ c && c ≤ (if b = 244 then 143 else 191)) then
        match r2 with
        | [] => (none, [])
        | d :: r3 =>
          if utf8Cont d then
            match r3 with
            | [] => (none, [])
            | e :: r4 =>
              if utf8Cont e then
                (some (Char.ofNat ((b - 240) * 262144 + (c - 128) * 4096 + (d - 128) * 64 + (e - 128))), r4)
              else (none, e :: r4)
          else (none, d :: r3)
      else (none, c :: r2)
  else (none, rest)

theorem utf8Step_len (b : Nat) (rest : List Nat) :
    (utf8Step b rest).2.length ≤ rest.length := by
  unfold utf8Step
  repeat' split
  all_goals simp_all
  all_goals omega

/-- Fuelled decoding loop; every step consumes at least one byte, so fuel
equal to the byte count makes the fuel bound unreachable. -/
def decodeUtf8IgnoreF : Nat → List Nat → List Char
  | 0, _ => []
  | _, [] => []
  | fuel + 1, b :: rest =>
    match utf8Step b rest with
    | (some c, rem) => c :: decodeUtf8IgnoreF fuel rem
    | (none, rem) => decodeUtf8IgnoreF fuel rem

/-- Model of `bytes.decode("utf-8", errors="ignore")`. -/
def decodeUtf8Ignore (l : List Nat) : List Char := decodeUtf8IgnoreF l.length l

/-- Encode a character list back to UTF-8 bytes (Python writing a text file). -/
def encodeUtf8Char (c : Char) : List Nat :=
  let n := c.toNat
  if n < 128 then [n]
  else if n < 2048 then [192 + n / 64, 128 + n % 64]
  else if n < 65536 then [224 + n / 4096, 128 + n / 64 % 64, 128 + n % 64]
  else [240 + n / 262144, 128 + n / 4096 % 64, 128 + n / 64 % 64, 128 + n % 64]

/-- Encode a character list to UTF-8 bytes. -/
def encodeUtf8 (l : List Char) : List Nat := l.flatMap encodeUtf8Char

/-! ## app/validator.py — ResourceValidator -/

/-- The byte signature `b"<!DOCTYPE"`. -/
def doctypeBytes : List Nat := strBytes "<!DOCTYPE"

/-- The byte signature `b"<html"`. -/
def htmlOpenBytes : List Nat := strBytes "<html"

/-- The byte signature `b"<svg"`. -/
def svgBytes : List Nat := strBytes "<svg"

/-- The magic-byte table of `is_valid_image` (`valid_headers` in the source). -/
def validHeaders : List (List Nat) :=
  [[255, 216, 255], [137, 80, 78, 71], strBytes "GIF89a", strBytes "GIF87a",
   svgBytes, strBytes "RIFF", [0, 0, 1, 0]]

/-- Model of `ResourceValidator.is_valid_image` from app/validator.py. The `url`
argument is present in the source signature and unused by its body. -/
def is_valid_image (data : List Nat) (url : String) : Bool :=
  if data.isEmpty then false
  else if doctypeBytes.isPrefixOf (data.dropWhile isWsByte)
          || htmlOpenBytes.isPrefixOf (data.dropWhile isWsByte) then false
  else if subIn svgBytes ((data.take 100).map byteLower) then true
  else validHeaders.any (fun hd => hd.isPrefixOf data)

/-- Left brace character, written without a literal brace. -/
def lbrace : Char := Char.ofNat 123

/-- Right brace character, written without a literal brace. -/
def rbrace : Char := Char.ofNat 125

/-- The `text = data.decode('utf-8', errors='ignore').strip()` binding
shared by `is_valid_css` and `is_valid_js`. -/
def pyTextOf (data : List Nat) : List Char := pyStripChars (decodeUtf8Ignore data)

/-- Model of `ResourceValidator.is_valid_css` from app/validator.py. Decoding with
`errors="ignore"` never raises, so the source's `except` branch is dead. -/
def is_valid_css (data : List Nat) : Bool :=
  if data.isEmpty then false
  else if ("<!doctype".toList).isPrefixOf (lowerChars (pyTextOf data))
        || subIn ("<html".toList) (lowerChars (pyTextOf data)) then false
  else if (pyTextOf data).length > 20 then
    (subIn [lbrace] (pyTextOf data) && subIn [rbrace] (pyTextOf data)) ||
    subIn ("@import".toList) (pyTextOf data) ||
    subIn ("@media".toList) (pyTextOf data) ||
    subIn ("@font-face".toList) (pyTextOf data) ||
    subIn ("body".toList) (pyTextOf data) ||
    subIn ("color:".toList) (pyTextOf data)
  else true

/-- Model of `ResourceValidator.is_valid_js` from app/validator.py. -/
def is_valid_js (data : List Nat) : Bool :=
  if data.isEmpty then false
  else if ("<!doctype".toList).isPrefixOf (lowerChars (pyTextOf data))
        || subIn ("<html".toList) (lowerChars (pyTextOf data)) then false
  else true

/-- Formalization of the claim's hypothesis "the payload's text begins with
an HTML doctype or an HTML opening tag": after stripping leading ASCII
whitespace the bytes spell `<!doctype` or `<html` up to letter case
(HTML keywords are case-insensitive). -/
def beginsWithHtmlSig (data : List Nat) : Bool :=
  (strBytes "<!doctype").isPrefixOf ((data.dropWhile isWsByte).map byteLower) ||
  (strBytes "<html").isPrefixOf ((data.dropWhile isWsByte).map byteLower)

/-! ### Support lemmas about decoding, stripping and searching -/

theorem wsByte_lt (b : Nat) (h : isWsByte b = true) : b < 128 := by
  simp only [isWsByte, Bool.or_eq_true, decide_eq_true_eq] at h
  rcases h with h | h | h | h | h | h <;> omega

theorem wsByte_pySpace (b : Nat) (h : isWsByte b = true) :
    isPySpace (Char.ofNat b) = true := by
  have hcases : b = 9 ∨ b = 10 ∨ b = 11 ∨ b = 12 ∨ b = 13 ∨ b = 32 := by
    simp only [isWsByte, Bool.or_eq_true, decide_eq_true_eq] at h
    tauto
  rcases hcases with rfl | rfl | rfl | rfl | rfl | rfl <;> decide

theorem decodeF_ascii (l : List Nat) (hl : ∀ b ∈ l, b < 128) (f : Nat)
    (rest : List Nat) :
    decodeUtf8IgnoreF (l.length + f) (l ++ rest)
      = l.map Char.ofNat ++ decodeUtf8IgnoreF f rest := by
  induction l with
  | nil => simp
  | cons b tl ih =>
    have hb : b < 128 := hl b (by simp)
    have htl : ∀ x ∈ tl, x < 128 := fun x hx => hl x (by simp [hx])
    have hlen : (b :: tl).length + f = (tl.length + f) + 1 := by
      simp [Nat.succ_add]
    rw [hlen, List.cons_append, decodeUtf8IgnoreF]
    simp only [utf8Step, if_pos hb]
    rw [ih htl]
    simp

theorem decode_ascii_append (l rest : List Nat) (hl : ∀ b ∈ l, b < 128) :
    decodeUtf8Ignore (l ++ rest) = l.map Char.ofNat ++ decodeUtf8Ignore rest := by
  unfold decodeUtf8Ignore
  rw [List.length_append]
  exact decodeF_ascii l hl rest.length rest

theorem dropWhile_all_cons (p : Char → Bool) (A : List Char) (c : Char)
    (t : List Char) (hA : ∀ a ∈ A, p a = true) (hc : p c = false) :
    List.dropWhile p (A ++ c :: t) = c :: t := by
  induction A with
  | nil => simp [List.dropWhile, hc]
  | cons a A' ih =>
    have ha : p a = true := hA a (by simp)
    have hA' : ∀ x ∈ A', p x = true := fun x hx => hA x (by simp [hx])
    simp [List.dropWhile, ha, ih hA']

theorem dropWhile_app_exists (p : Char → Bool) (b0 : Char) (B : List Char)
    (hb : p b0 = false) :
    ∀ A : List Char, ∃ Y, List.dropWhile p (A ++ b0 :: B) = Y ++ b0 :: B := by
  intro A
  induction A with
  | nil => exact ⟨[], by simp [List.dropWhile, hb]⟩
  | cons a A' ih =>
    by_cases ha : p a = true
    · obtain ⟨Y, hY⟩ := ih
      exact ⟨Y, by simp [List.dropWhile, ha, hY]⟩
    · exact ⟨a :: A', by simp [List.dropWhile, Bool.eq_false_iff.mpr ha]⟩

theorem isPrefixOf_append_self {α : Type} [DecidableEq α] (a b : List α) :
    a.isPrefixOf (a ++ b) = true := by
  induction a with
  | nil => simp [List.isPrefixOf]
  | cons x xs ih => simp [List.isPrefixOf, ih]

theorem subIn_append_self {α : Type} [DecidableEq α] (a b : List α)
    (ha : a ≠ []) : subIn a (a ++ b) = true := by
  match a, ha with
  | x :: xs, _ =>
    show subIn (x :: xs) ((x :: xs) ++ b) = true
    rw [List.cons_append, subIn]
    rw [show x :: (xs ++ b) = (x :: xs) ++ b from rfl]
    simp [isPrefixOf_append_self]

/-- The stripped decoded text of a payload whose whitespace-stripped bytes
start with an all-ASCII, no-whitespace signature starts with that
signature's characters. -/
theorem strip_decode_sig (data sig : List Nat) (sigChars : List Char)
    (hpre : sig.isPrefixOf (data.dropWhile isWsByte) = true)
    (hascii : ∀ b ∈ sig, b < 128)
    (hmap : sig.map Char.ofNat = sigChars)
    (hne : sigChars ≠ [])
    (hnospace : ∀ c ∈ sigChars, isPySpace c = false) :
    ∃ X, pyStripChars (decodeUtf8Ignore data) = sigChars ++ X := by
  obtain ⟨tl, htl⟩ := (List.isPrefixOf_iff_prefix.mp hpre)
  have hdata : data = data.takeWhile isWsByte ++ (sig ++ tl) := by
    rw [htl, List.takeWhile_append_dropWhile]
  have hwlt : ∀ b ∈ data.takeWhile isWsByte, b < 128 := fun b hb =>
    wsByte_lt b (List.mem_takeWhile_imp hb)
  have hdec : decodeUtf8Ignore data
      = (data.takeWhile isWsByte).map Char.ofNat
        ++ (sigChars ++ decodeUtf8Ignore tl) := by
    conv_lhs => rw [hdata]
    rw [decode_ascii_append _ _ hwlt, decode_ascii_append _ _ hascii, hmap]
  have hwsp : ∀ c ∈ (data.takeWhile isWsByte).map Char.ofNat,
      isPySpace c = true := by
    intro c hc
    obtain ⟨b, hb, rfl⟩ := List.mem_map.mp hc
    exact wsByte_pySpace b (List.mem_takeWhile_imp hb)
  match sigChars, hne with
  | s0 :: sig', _ =>
    have hs0 : isPySpace s0 = false := hnospace s0 (by simp)
    have hdrop : List.dropWhile isPySpace (decodeUtf8Ignore data)
        = (s0 :: sig') ++ (decodeUtf8Ignore tl) := by
      rw [hdec]
      rw [show ((s0 :: sig') ++ decodeUtf8Ignore tl) = s0 :: (sig' ++ decodeUtf8Ignore tl) from rfl]
      exact dropWhile_all_cons _ _ _ _ hwsp hs0
    -- now strip the right-hand side
    have hrev : ((s0 :: sig') ++ decodeUtf8Ignore tl).reverse
        = (decodeUtf8Ignore tl).reverse ++ (s0 :: sig').reverse := by
      simp
    have hrevne : (s0 :: sig').reverse ≠ [] := by simp
    obtain ⟨b0, B, hB⟩ := List.exists_cons_of_ne_nil hrevne
    have hb0mem : b0 ∈ s0 :: sig' := by
      have h2 : b0 ∈ (s0 :: sig').reverse := by rw [hB]; simp
      exact List.mem_reverse.mp h2
    have hb0 : isPySpace b0 = false := hnospace b0 hb0mem
    obtain ⟨Y, hY⟩ := dropWhile_app_exists isPySpace b0 B hb0
      ((decodeUtf8Ignore tl).reverse)
    refine ⟨Y.reverse, ?_⟩
    unfold pyStripChars
    rw [hdrop, hrev, hB, hY]
    rw [← hB]
    simp

/-! ### Claim C3 -/

/-- C3, counterexample.  The claim says: for every byte payload whose text
begins with an HTML doctype or an HTML opening tag, `is_valid_image`,
`is_valid_css` and `is_valid_js` all return false.  The payload
`<HTML><svg` begins with an HTML opening tag (tag names are
case-insensitive in HTML), yet `is_valid_image` accepts it: the validator's
HTML check compares against the case-sensitive byte literals `<!DOCTYPE`
and `<html`, misses `<HTML`, and then the loose `<svg`-within-the-first-
100-bytes rule fires. -/
theorem c3_counterexample :
    beginsWithHtmlSig (strBytes "<HTML><svg") = true ∧
    is_valid_image (strBytes "<HTML><svg") "https://a.test/x.png" = true ∧
    is_valid_css (strBytes "<HTML><svg") = false ∧
    is_valid_js (strBytes "<HTML><svg") = false := by decide

/-- C3, amended: for every byte payload that, after stripping leading ASCII
whitespace, begins with the exact byte signature `<!DOCTYPE` or `<html`
(the case-sensitive signatures the code tests), `is_valid_image`,
`is_valid_css` and `is_valid_js` all return false. -/
theorem c3_amended (data : List Nat) (url : String)
    (h : doctypeBytes.isPrefixOf (data.dropWhile isWsByte) = true ∨
         htmlOpenBytes.isPrefixOf (data.dropWhile isWsByte) = true) :
    is_valid_image data url = false ∧ is_valid_css data = false ∧
    is_valid_js data = false := by
  have hEmpty : data.isEmpty = false := by
    cases hd : data.isEmpty
    · rfl
    · have hnil : data = [] := by simpa [List.isEmpty_iff] using hd
      subst hnil
      rcases h with h | h <;> exact absurd h (by decide)
  have hcondImg : (doctypeBytes.isPrefixOf (data.dropWhile isWsByte)
          || htmlOpenBytes.isPrefixOf (data.dropWhile isWsByte)) = true := by
    rcases h with h | h <;> simp [h]
  have hcondTxt : (("<!doctype".toList).isPrefixOf (lowerChars (pyTextOf data))
      || subIn ("<html".toList) (lowerChars (pyTextOf data))) = true := by
    rcases h with h | h
    · obtain ⟨X, hX⟩ := strip_decode_sig data doctypeBytes ("<!DOCTYPE".toList)
        h (by decide) (by decide) (by decide) (by decide)
      have hlow : lowerChars (pyTextOf data)
          = "<!doctype".toList ++ lowerChars X := by
        show lowerChars (pyStripChars (decodeUtf8Ignore data)) = _
        rw [hX]
        unfold lowerChars
        rw [List.map_append]
        congr 1
      rw [hlow, isPrefixOf_append_self, Bool.true_or]
    · obtain ⟨X, hX⟩ := strip_decode_sig data htmlOpenBytes ("<html".toList)
        h (by decide) (by decide) (by decide) (by decide)
      have hlow : lowerChars (pyTextOf data)
          = "<html".toList ++ lowerChars X := by
        show lowerChars (pyStripChars (decodeUtf8Ignore data)) = _
        rw [hX]
        unfold lowerChars
        rw [List.map_append]
        congr 1
      rw [hlow, subIn_append_self _ _ (by decide), Bool.or_true]
  refine ⟨?_, ?_, ?_⟩
  · unfold is_valid_image
    rw [hEmpty]
    simp only [Bool.false_eq_true, if_false]
    rw [if_pos hcondImg]
  · unfold is_valid_css
    rw [hEmpty]
    simp only [Bool.false_eq_true, if_false]
    rw [if_pos hcondTxt]
  · unfold is_valid_js
    rw [hEmpty]
    simp only [Bool.false_eq_true, if_false]
    rw [if_pos hcondTxt]

/-- C3, witness for the amended theorem at a concrete HTML error page. -/
theorem c3_amended_witness :
    (doctypeBytes.isPrefixOf
        ((strBytes "<!DOCTYPE html><p>error page</p>").dropWhile isWsByte) = true ∨
     htmlOpenBytes.isPrefixOf
        ((strBytes "<!DOCTYPE html><p>error page</p>").dropWhile isWsByte) = true) ∧
    (is_valid_image (strBytes "<!DOCTYPE html><p>error page</p>") "u" = false ∧
     is_valid_css (strBytes "<!DOCTYPE html><p>error page</p>") = false ∧
     is_valid_js (strBytes "<!DOCTYPE html><p>error page</p>") = false) :=
  ⟨Or.inl (by decide),
   c3_amended (strBytes "<!DOCTYPE html><p>error page</p>") "u" (Or.inl (by decide))⟩

/-! ## app/optimizer.py — ResourceOptimizer

`optimize_image` delegates the whole transformation to Pillow's decoders and
encoders and is kept abstract (see the notes on claim C7); `minify_css` and
`minify_js` are embedded below.  The three `re.sub` passes of the CSS
fallback are implemented as direct left-to-right scanners. -/

/-- Remainder of the input after the first `*/` occurrence, if any
(the non-greedy search inside the regex pattern slash-star dot-star-lazy
star-slash). -/
def afterCloseCmt : List Char → Option (List Char)
  | [] => none
  | c :: rest =>
    match rest with
    | c2 :: rest2 =>
      if c = '*' ∧ c2 = '/' then some rest2 else afterCloseCmt rest
    | [] => none

theorem afterCloseCmt_len (l : List Char) :
    ∀ r, afterCloseCmt l = some r → r.length ≤ l.length := by
  induction l with
  | nil => intro r hr; simp [afterCloseCmt] at hr
  | cons c rest ih =>
    intro r hr
    match rest, ih with
    | [], _ => simp [afterCloseCmt] at hr
    | c2 :: rest2, ih =>
      rw [afterCloseCmt] at hr
      split at hr
      · cases hr
        simp
        omega
      · have := ih r hr
        simp at this ⊢
        omega

/-- Fuelled scanner for `re.sub(r"/\*.*?\*/", "", content, flags=re.DOTALL)`:
a block comment with a closing `*/` is deleted, an unclosed `/*` matches
nothing and is kept verbatim. -/
def removeCommentsF : Nat → List Char → List Char
  | 0, l => l
  | fuel + 1, l =>
    match l with
    | [] => []
    | c :: rest =>
      if c = '/' then
        match rest with
        | c2 :: rest2 =>
          if c2 = '*' then
            match afterCloseCmt rest2 with
            | some r => removeCommentsF fuel r
            | none => c :: c2 :: rest2
          else c :: removeCommentsF fuel rest
        | [] => c :: removeCommentsF fuel rest
      else c :: removeCommentsF fuel rest

/-- Model of `re.sub(r"/\*.*?\*/", "", content, flags=re.DOTALL)`. -/
def removeComments (l : List Char) : List Char := removeCommentsF l.length l

/-- One pass of `re.sub(r"\s+", " ", content)`: every whitespace run
becomes a single space. -/
def collapseWsAux : Bool → List Char → List Char
  | _, [] => []
  | inRun, c :: cs =>
    if isPySpace c then
      if inRun then collapseWsAux true cs else ' ' :: collapseWsAux true cs
    else c :: collapseWsAux false cs

/-- Model of `re.sub(r"\s+", " ", content)`. -/
def collapseWs (l : List Char) : List Char := collapseWsAux false l

/-- The punctuation class of the pattern `\s*([:;{}])\s*`. -/
def isPunctCh (c : Char) : Bool :=
  c = ':' || c = ';' || c = lbrace || c = rbrace

/-- Fuelled scanner for `re.sub(r"\s*([:;{}])\s*", r"\1", content)`: at each
position, greedily take whitespace, require a punctuation character, then
swallow trailing whitespace; on failure the engine advances one
character. -/
def stripPunctF : Nat → List Char → List Char
  | 0, l => l
  | fuel + 1, l =>
    match l with
    | [] => []
    | c :: cs =>
      if isPunctCh c then c :: stripPunctF fuel (cs.dropWhile isPySpace)
      else if isPySpace c then
        match cs.dropWhile isPySpace with
        | p :: r2 =>
          if isPunctCh p then p :: stripPunctF fuel (r2.dropWhile isPySpace)
          else c :: stripPunctF fuel cs
        | [] => c :: stripPunctF fuel cs
      else c :: stripPunctF fuel cs

/-- Model of `re.sub(r"\s*([:;{}])\s*", r"\1", content)`. -/
def stripPunct (l : List Char) : List Char := stripPunctF l.length l

/-- The conservative regex fallback of `minify_css`: strip comments,
collapse whitespace runs, drop whitespace around `:`, `;` and braces. -/
def cssRegexFallback (content : List Char) : List Char :=
  stripPunct (collapseWs (removeComments content))

/-- Outcome of the external `csscompressor` dependency, which the model
cannot execute: the import fails, the call raises, or it returns a
minified string. -/
inductive CssCompress
  | importErr
  | raises
  | compresses (out : List Char)

/-- Model of `ResourceOptimizer.minify_css` from app/optimizer.py, as a function from
the file's text to the file's final text plus the returned boolean.
On `importErr` the function logs and returns False without touching the
file; on a successful compression it overwrites only when the result is
nonempty and strictly smaller; when the compressor raises, the regex
fallback result is written unconditionally. -/
def minify_css : CssCompress → List Char → List Char × Bool
  | CssCompress.importErr, content => (content, false)
  | CssCompress.compresses minified, content =>
    if ¬ minified.isEmpty ∧ minified.length < content.length then (minified, true)
    else (content, false)
  | CssCompress.raises, content => (cssRegexFallback content, true)

/-- Model of `ResourceOptimizer.minify_js` from app/optimizer.py: remove block
comments, keep line breaks, overwrite only when strictly smaller. -/
def minify_js (content : List Char) : List Char × Bool :=
  if (removeComments content).length < content.length then
    (removeComments content, true)
  else (content, false)

theorem dropWhile_len_le {α : Type} (p : α → Bool) (l : List α) :
    (List.dropWhile p l).length ≤ l.length := by
  induction l with
  | nil => simp [List.dropWhile]
  | cons a t ih =>
    rw [List.dropWhile]
    split
    · simp; omega
    · simp

theorem removeCommentsF_len (fuel : Nat) :
    ∀ l : List Char, (removeCommentsF fuel l).length ≤ l.length := by
  induction fuel with
  | zero => intro l; simp [removeCommentsF]
  | succ f ih =>
    intro l
    rcases l with _ | ⟨c, rest⟩
    · simp [removeCommentsF]
    rcases rest with _ | ⟨c2, rest2⟩
    · have h0 : removeCommentsF f [] = [] := by cases f <;> simp [removeCommentsF]
      simp only [removeCommentsF]
      split
      · simp [h0]
      · simp [h0]
    · simp only [removeCommentsF]
      split
      · split
        · split
          next r hac =>
            have h1 := afterCloseCmt_len rest2 r hac
            have h2 := ih r
            simp
            omega
          next hac => simp
        · have := ih (c2 :: rest2)
          simp at this ⊢
          omega
      · have := ih (c2 :: rest2)
        simp at this ⊢
        omega

theorem removeComments_len (l : List Char) :
    (removeComments l).length ≤ l.length := removeCommentsF_len l.length l

theorem collapseWsAux_len (l : List Char) :
    ∀ b, (collapseWsAux b l).length ≤ l.length := by
  induction l with
  | nil => intro b; simp [collapseWsAux]
  | cons c cs ih =>
    intro b
    rw [collapseWsAux]
    split
    · split
      · have := ih true
        simp
        omega
      · have := ih true
        simp at this ⊢
        omega
    · have := ih false
      simp at this ⊢
      omega

theorem collapseWs_len (l : List Char) :
    (collapseWs l).length ≤ l.length := collapseWsAux_len l false

theorem stripPunctF_len (fuel : Nat) :
    ∀ l : List Char, (stripPunctF fuel l).length ≤ l.length := by
  induction fuel with
  | zero => intro l; simp [stripPunctF]
  | succ f ih =>
    intro l
    rcases l with _ | ⟨c, cs⟩
    · simp [stripPunctF]
    simp only [stripPunctF]
    split
    · have h1 := ih (cs.dropWhile isPySpace)
      have h2 := dropWhile_len_le isPySpace cs
      simp at h1 ⊢
      omega
    · split
      · split
        next p r2 hd =>
          split
          · have h1 := ih (r2.dropWhile isPySpace)
            have h2 := dropWhile_len_le isPySpace r2
            have h3 := dropWhile_len_le isPySpace cs
            rw [hd] at h3
            simp at h1 h3 ⊢
            omega
          · have := ih cs
            simp at this ⊢
            omega
        next hd =>
          have := ih cs
          simp at this ⊢
          omega
      · have := ih cs
        simp at this ⊢
        omega

theorem stripPunct_len (l : List Char) :
    (stripPunct l).length ≤ l.length := stripPunctF_len l.length l

theorem cssRegexFallback_len (content : List Char) :
    (cssRegexFallback content).length ≤ content.length :=
  le_trans (stripPunct_len _) (le_trans (collapseWs_len _) (removeComments_len _))

/-! ### Claim C6 -/

/-- C6, counterexample.  The claim says `minify_css` overwrites only when
the produced result is strictly smaller, and otherwise leaves the file's
bytes unchanged.  When `csscompressor` raises and the regex fallback runs,
the fallback writes its result unconditionally: on the three-character
stylesheet text `a\nb` the result `a b` has the same length, is not
strictly smaller, and yet replaces the file's content. -/
theorem c6_counterexample :
    minify_css CssCompress.raises ("a\nb".toList) = ("a b".toList, true) ∧
    "a b".toList ≠ "a\nb".toList ∧
    ¬ ("a b".toList.length < "a\nb".toList.length) := by decide

/-- C6, amended: `minify_css` never increases the file's size; in the
`csscompressor` path it overwrites only when the result is nonempty and
strictly smaller (otherwise the bytes are unchanged); when the compressor
raises, the regex-fallback result — never longer than the original, but
possibly a same-length rewrite — is written; when the import fails the
file is untouched. -/
theorem c6_amended (cc : CssCompress) (content : List Char) :
    (minify_css cc content).1.length ≤ content.length ∧
    (∀ m, cc = CssCompress.compresses m →
      (minify_css cc content).1 = content ∨
      ((minify_css cc content).1 = m ∧ m.length < content.length)) ∧
    (cc = CssCompress.importErr → (minify_css cc content).1 = content) := by
  cases cc with
  | importErr => simp [minify_css]
  | raises =>
    refine ⟨cssRegexFallback_len content, ?_, ?_⟩
    · intro m hm; cases hm
    · intro hm; cases hm
  | compresses out =>
    refine ⟨?_, ?_, ?_⟩
    · rw [minify_css]
      split
      · next hcond => simp; omega
      · simp
    · intro m hm
      cases hm
      rw [minify_css]
      split
      · next hcond => exact Or.inr ⟨rfl, hcond.2⟩
      · exact Or.inl rfl
    · intro hm; cases hm

/-- C6, witness: the amended theorem applied where the compressor returns a
strictly smaller result, which is written. -/
theorem c6_amended_witness :
    (minify_css (CssCompress.compresses ("a".toList)) ("a  b".toList)).1
        = "a  b".toList ∨
    ((minify_css (CssCompress.compresses ("a".toList)) ("a  b".toList)).1
        = "a".toList ∧ ("a".toList).length < ("a  b".toList).length) :=
  (c6_amended (CssCompress.compresses ("a".toList)) ("a  b".toList)).2.1
    ("a".toList) rfl

/-! ## URL helpers (urllib.parse fragment used by the harvester) -/

/-- Split a character list around the first `://` marker:
`some (scheme, rest)` when present. -/
def findMark : List Char → Option (List Char × List Char)
  | [] => none
  | c :: r =>
    match c :: r with
    | ':' :: '/' :: '/' :: r2 => some ([], r2)
    | _ =>
      match findMark r with
      | some (a, b2) => some (c :: a, b2)
      | none => none

/-- Model of `urllib.parse.urljoin` restricted to the shapes arising in this
pipeline: an empty reference returns the base, a reference containing `://`
is already absolute, a reference starting with `/` is resolved against the
base's scheme and authority, and any other reference replaces the last path
segment of the base.  Dot-segment normalization, scheme-relative references
and query merging are outside the modelled fragment. -/
def urljoin (base url : String) : String :=
  match url.toList with
  | [] => base
  | u0 :: urest =>
    match findMark (u0 :: urest) with
    | some _ => url
    | none =>
      match findMark base.toList with
      | none => url
      | some (scheme, rest) =>
        let hostPart := rest.takeWhile (fun c => c ≠ '/')
        let pathPart := rest.drop hostPart.length
        let pre := scheme ++ (':' :: '/' :: '/' :: hostPart)
        if u0 = '/' then ⟨pre ++ u0 :: urest⟩
        else
          let dir := (pathPart.reverse.dropWhile (fun c => c ≠ '/')).reverse
          let dir2 := if dir.isEmpty then ['/'] else dir
          ⟨pre ++ dir2 ++ u0 :: urest⟩

/-- Model of `urlparse(url).path`: the path component, after the authority and
before any query or fragment. -/
def urlPath (u : String) : List Char :=
  match findMark u.toList with
  | some (_, rest) =>
    let after := rest.dropWhile (fun c => c ≠ '/')
    after.takeWhile (fun c => c ≠ '?' ∧ c ≠ '#')
  | none => u.toList.takeWhile (fun c => c ≠ '?' ∧ c ≠ '#')

/-- Model of `os.path.basename`: everything after the last slash. -/
def baseNameL (p : List Char) : List Char :=
  (p.reverse.takeWhile (fun c => c ≠ '/')).reverse

/-- Hexadecimal digit value. -/
def hexVal (c : Char) : Option Nat :=
  if '0' ≤ c ∧ c ≤ '9' then some (c.toNat - 48)
  else if 'a' ≤ c ∧ c ≤ 'f' then some (c.toNat - 87)
  else if 'A' ≤ c ∧ c ≤ 'F' then some (c.toNat - 55)
  else none

/-- Fuelled percent-decoding loop; every step consumes at least one
character. -/
def unquoteF : Nat → List Char → List Char
  | 0, l => l
  | fuel + 1, l =>
    match l with
    | [] => []
    | '%' :: rest =>
      match rest with
      | a :: b2 :: r =>
        match hexVal a, hexVal b2 with
        | some x, some y => Char.ofNat (16 * x + y) :: unquoteF fuel r
        | _, _ => '%' :: unquoteF fuel rest
      | _ => '%' :: unquoteF fuel rest
    | c :: rest => c :: unquoteF fuel rest

/-- Model of `urllib.parse.unquote` for single-byte escapes: `%XX` becomes
the character with that code, an invalid escape is left verbatim
(multi-byte UTF-8 escapes do not arise in this development). -/
def unquoteL (l : List Char) : List Char := unquoteF l.length l

/-- Word characters of the regex class backslash-w (ASCII range). -/
def isWordCh (c : Char) : Bool := c.isAlphanum || c = '_'

/-- The extension list tested by `sanitize_filename` before appending a
default extension. -/
def sanitizeKnownExts : List String :=
  [".jpg", ".jpeg", ".png", ".gif", ".svg", ".webp", ".ico", ".css", ".js",
   ".woff", ".woff2", ".ttf"]

/-- Model of `ClonerPro.sanitize_filename` from app/cloner.py.  The md5 digest used
for empty or overlong basenames is an external primitive and is passed in
as the function `hsh` (every property proved below holds for all `hsh`). -/
def sanitize_filename (hsh : String → String) (url : String)
    (default_ext : String) : String :=
  let path := unquoteL (urlPath url)
  let fname0 := baseNameL path
  let fname1 :=
    if fname0.isEmpty ∨ fname0.length > 100 then
      "resource_".toList ++ (hsh url).toList ++ default_ext.toList
    else fname0
  let fname2 := fname1.map
    (fun c => if isWordCh c || c = '-' || c = '.' then c else '_')
  let fname3 :=
    if ¬ default_ext.toList.isEmpty ∧
        ¬ sanitizeKnownExts.any (fun e => e.toList.isSuffixOf (lowerChars fname2))
    then fname2 ++ default_ext.toList
    else fname2
  ⟨fname3⟩

/-! ## app/fallback.py — FallbackManager -/

/-- The `cdn_map` catalogue of FallbackManager (insertion order preserved,
as Python dict iteration does). -/
def cdn_map : List (String × String) :=
  [("jquery", "https://code.jquery.com/jquery-3.6.0.min.js"),
   ("bootstrap", "https://cdn.jsdelivr.net/npm/bootstrap@5.3.0/dist/js/bootstrap.bundle.min.js"),
   ("fontawesome", "https://cdnjs.cloudflare.com/ajax/libs/font-awesome/6.0.0/css/all.min.css"),
   ("animate.css", "https://cdnjs.cloudflare.com/ajax/libs/animate.css/4.1.1/animate.min.css"),
   ("tailwind", "https://cdn.tailwindcss.com"),
   ("vue", "https://unpkg.com/vue@3/dist/vue.global.js"),
   ("react", "https://unpkg.com/react@18/umd/react.production.min.js"),
   ("react-dom", "https://unpkg.com/react-dom@18/umd/react-dom.production.min.js")]

/-- Model of `FallbackManager.get_cdn_url`: first catalogue entry whose key is a
substring of the lower-cased failing URL. -/
def get_cdn_url (original_url : String) : Option String :=
  (cdn_map.find? (fun kv => subIn kv.1.toList (lowerChars original_url.toList))).map
    Prod.snd

/-- The catalogue's substitute URLs. -/
def cdnTargets : List String := cdn_map.map Prod.snd

theorem get_cdn_url_mem (u c : String) (h : get_cdn_url u = some c) :
    c ∈ cdnTargets := by
  unfold get_cdn_url at h
  cases hf : cdn_map.find?
      (fun kv => subIn kv.1.toList (lowerChars u.toList)) with
  | none => rw [hf] at h; simp at h
  | some kv =>
    rw [hf] at h
    simp at h
    subst h
    exact List.mem_map_of_mem Prod.snd (List.mem_of_find?_eq_some hf)

/-! ## `ClonerPro._fetch_content` and claim C5 -/

/-- One outcome of `page.request.get(url, timeout=30000)`: either an
exception (timeout, connection error — swallowed by the bare `except`)
or a response with an HTTP status and a body. -/
inductive FetchOutcome
  | exn
  | resp (status : Nat) (body : List Nat)

/-- Model of `ClonerPro._fetch_content` from app/cloner.py: return the body when the
status is exactly 200, `None` otherwise; exceptions are caught and also
yield `None`. -/
def fetch_content : FetchOutcome → Option (List Nat)
  | FetchOutcome.exn => none
  | FetchOutcome.resp s b => if s = 200 then some b else none

/-- C5, counterexample.  The claim says the fetch yields the payload exactly
when the status is 2xx.  Status 206 is 2xx, yet `_fetch_content` compares
`response.status == 200` and returns `None`. -/
theorem c5_counterexample :
    fetch_content (FetchOutcome.resp 206 (strBytes "partial body")) = none ∧
    200 ≤ 206 ∧ 206 < 300 := by decide

/-- C5, amended: the fetch yields the response payload exactly when the
status is exactly 200; any other status, and the caught-exception path
(timeout or connection error), yield `None`, and the function is total, so
no exception propagates. -/
theorem c5_amended (o : FetchOutcome) (b : List Nat) :
    fetch_content o = some b ↔ o = FetchOutcome.resp 200 b := by
  cases o with
  | exn => simp [fetch_content]
  | resp s bb =>
    by_cases hs : s = 200
    · subst hs
      simp [fetch_content]
    · simp [fetch_content, hs]

/-- C5, witness: the amended equivalence applied at a concrete 200
response. -/
theorem c5_amended_witness :
    fetch_content (FetchOutcome.resp 200 (strBytes "ok")) = some (strBytes "ok") :=
  (c5_amended (FetchOutcome.resp 200 (strBytes "ok")) (strBytes "ok")).mpr rfl

/-! ## app/cloner.py — the ClonerPro harvesting pipeline

The document passed to `process_page` is modelled as the list of resource
references the five asset passes iterate over (images, stylesheet links,
scripts, font preloads, icon links), after the tracker/form/base pre-passes,
which do not touch resource rewriting.  The in-place optimizers invoked
after a persist transform file contents but never create or remove files;
they enter the model as the abstract parameter `Env.opt`. -/

/-- Resource type tags passed to `download_resource`. -/
inductive RType
  | image
  | css
  | js
  | font
deriving DecidableEq

/-- The kind-appropriate validator dispatch inside `download_resource`
(`font` and any other tag leave `is_valid = True`). -/
def validatorFor : RType → List Nat → String → Bool
  | RType.image, d, u => is_valid_image d u
  | RType.css, d, _ => is_valid_css d
  | RType.js, d, _ => is_valid_js d
  | RType.font, _, _ => true

/-- One validated persist: source URL, target path, resource type, and the
fetched bytes that passed validation. -/
structure WriteEntry where
  url : String
  path : String
  rt : RType
  content : List Nat
deriving DecidableEq

/-- The per-job mutable state of `ClonerPro`: the dedup set
(`self.downloaded`), the output tree contents, the log of validated
persists and the log of URLs handed to `_fetch_content` (instrumentation
for the dedup claims). -/
structure St where
  downloaded : List String
  files : List (String × List Nat)
  writeLog : List WriteEntry
  fetchLog : List String
deriving DecidableEq

/-- Current content of the file at `p`, if it exists (an overwrite prepends
a new association). -/
def lookupFile (files : List (String × List Nat)) (p : String) :
    Option (List Nat) :=
  (files.find? (fun kv => kv.1 == p)).map Prod.snd

/-- The collaborators of one harvesting job: the raw fetch oracle, the
in-place optimizers, the md5 digest, the page URL and the job's output
directory. -/
structure Env where
  fetch : String → Option (List Nat)
  opt : RType → List Nat → List Nat
  hsh : String → String
  pageUrl : String
  jobDir : String

/-- Python truthiness of the fetched value: `None` and the empty byte
string are both falsy (`if not content`). -/
def falsyContent : Option (List Nat) → Bool
  | none => true
  | some l => l.isEmpty

/-- The fetch-plus-fallback phase of `download_resource` (steps 1 and 2 of
its body): primary fetch of `url`, and on a falsy result a single retry
against the catalogued CDN substitute, if any. -/
def fetchPhase (env : Env) (st : St) (url : String) : St × Option (List Nat) :=
  let st1 : St := { st with fetchLog := st.fetchLog ++ [url] }
  let c1 := env.fetch url
  if falsyContent c1 then
    match get_cdn_url url with
    | some cdn => ({ st1 with fetchLog := st1.fetchLog ++ [cdn] }, env.fetch cdn)
    | none => (st1, c1)
  else (st1, c1)

/-- Model of `ClonerPro.download_resource` from app/cloner.py: dedup short-circuit,
primary fetch, single CDN fallback, kind-appropriate validation, persist
and in-place optimization.  Disk writes are assumed to succeed (no
filesystem faults are modelled). -/
def download_resource (env : Env) (st : St) (url savePath : String)
    (rt : RType) : St × Bool :=
  if url ∈ st.downloaded then (st, true)
  else
    let stc := fetchPhase env st url
    match stc.2 with
    | none => (stc.1, false)
    | some c =>
      if c.isEmpty then (stc.1, false)
      else if validatorFor rt c url then
        ({ stc.1 with
            downloaded := url :: stc.1.downloaded,
            files := (savePath, env.opt rt c) :: stc.1.files,
            writeLog := stc.1.writeLog ++ [⟨url, savePath, rt, c⟩] }, true)
      else (stc.1, false)

/-- The reference kinds the five passes of `process_page` iterate over,
plus `cssUrl` for `url(...)` references found inside a persisted
stylesheet. -/
inductive RefKind
  | img
  | cssLink
  | script
  | fontPreload
  | iconLink
  | cssUrl
deriving DecidableEq

/-- One markup reference: the kind of pass that finds it and the raw
attribute value. -/
structure Ref where
  kind : RefKind
  url : String
deriving DecidableEq

/-- The processing record of one reference: raw value, absolute URL, the
save path handed to `download_resource`, and the rewritten attribute value
(`none` when the reference was left untouched). -/
structure RefResult where
  kind : RefKind
  raw : String
  abs : String
  target : String
  rewritten : Option String
deriving DecidableEq

/-- Fuelled replacement loop for Python `str.replace` (all non-overlapping
occurrences, left to right). -/
def replaceAllF : Nat → List Char → List Char → List Char → List Char
  | 0, s, _, _ => s
  | fuel + 1, s, pat, rep =>
    match s with
    | [] => []
    | c :: tl =>
      if pat.isPrefixOf (c :: tl) ∧ ¬ pat.isEmpty then
        rep ++ replaceAllF fuel ((c :: tl).drop pat.length) pat rep
      else c :: replaceAllF fuel tl pat rep

/-- Python `content.replace(pat, rep)` for a nonempty `pat` (the patterns
substituted by `process_css_urls` are nonempty regex captures). -/
def replaceAll (s pat rep : List Char) : List Char := replaceAllF s.length s pat rep

/-- Quote characters accepted by the `url(...)` pattern. -/
def isQuoteCh (c : Char) : Bool := c.toNat = 34 || c.toNat = 39

/-- A character allowed inside the captured group `[^"')\s]+`. -/
def cssUrlTokChar (c : Char) : Bool := ¬ (isQuoteCh c || c = ')' || isPySpace c)

/-- Fuelled scanner for
`re.findall(r'url\(["\']?([^"\')\s]+)["\']?\)', css_content)`:
find `url(`, skip one optional quote, capture a nonempty token, then an
optional quote and the closing parenthesis; on a failed match the engine
advances one character. -/
def extractCssUrlsF : Nat → List Char → List (List Char)
  | 0, _ => []
  | fuel + 1, l =>
    match l with
    | [] => []
    | c :: tl =>
      if ("url(".toList).isPrefixOf (c :: tl) then
        let after := (c :: tl).drop 4
        let after2 :=
          match after with
          | q :: t => if isQuoteCh q then t else after
          | [] => after
        let tok := after2.takeWhile cssUrlTokChar
        let rest := after2.drop tok.length
        if tok.isEmpty then extractCssUrlsF fuel tl
        else
          match rest with
          | [] => extractCssUrlsF fuel tl
          | q :: t2 =>
            if q = ')' then tok :: extractCssUrlsF fuel t2
            else if isQuoteCh q then
              match t2 with
              | q2 :: t3 =>
                if q2 = ')' then tok :: extractCssUrlsF fuel t3
                else extractCssUrlsF fuel tl
              | [] => extractCssUrlsF fuel tl
            else extractCssUrlsF fuel tl
      else extractCssUrlsF fuel tl

/-- All `url(...)` captures of a stylesheet text, in order. -/
def extractCssUrls (l : List Char) : List (List Char) := extractCssUrlsF l.length l

/-- Classification of one `url(...)` capture by `process_css_urls`:
skip data/fragment references, resolve against the stylesheet's own URL,
then dispatch on extension substrings to the font or image branch
(anything else is skipped).  Returns `(absolute, savePath, rel, rtype)`. -/
def cssUrlPlan (env : Env) (cssBase : String) (raw : List Char) :
    Option (String × String × String × RType) :=
  if ("data:".toList).isPrefixOf raw || ("#".toList).isPrefixOf raw then none
  else
    let abs := urljoin cssBase ⟨raw⟩
    let filename := sanitize_filename env.hsh abs ""
    let lowraw := lowerChars raw
    if subIn (".woff".toList) lowraw || subIn (".ttf".toList) lowraw
        || subIn (".otf".toList) lowraw then
      some (abs, env.jobDir ++ "/assets/fonts/" ++ filename,
            "../assets/fonts/" ++ filename, RType.font)
    else if subIn (".jpg".toList) lowraw || subIn (".png".toList) lowraw
        || subIn (".svg".toList) lowraw then
      some (abs, env.jobDir ++ "/assets/images/" ++ filename,
            "../assets/images/" ++ filename, RType.image)
    else none

/-- The loop body of `process_css_urls` over the extracted captures,
carrying the harvester state, the evolving stylesheet text and the
`modified` flag. -/
def runCssUrls (env : Env) (cssBase : String) :
    List (List Char) → St → List Char → Bool →
      St × List Char × Bool × List RefResult
  | [], st, content, modified => (st, content, modified, [])
  | raw :: rest, st, content, modified =>
    match cssUrlPlan env cssBase raw with
    | none => runCssUrls env cssBase rest st content modified
    | some (abs, savePath, rel, rt) =>
      let dl := download_resource env st abs savePath rt
      if dl.2 then
        let step := runCssUrls env cssBase rest dl.1
          (replaceAll content raw rel.toList) true
        (step.1, step.2.1, step.2.2.1,
         ⟨RefKind.cssUrl, ⟨raw⟩, abs, savePath, some rel⟩ :: step.2.2.2)
      else
        let step := runCssUrls env cssBase rest dl.1 content modified
        (step.1, step.2.1, step.2.2.1,
         ⟨RefKind.cssUrl, ⟨raw⟩, abs, savePath, none⟩ :: step.2.2.2)

/-- Model of `ClonerPro.process_css_urls` from app/cloner.py: read the persisted
stylesheet, resolve each `url(...)` capture against the stylesheet's own
URL, download fonts and images, substitute the successful ones, and write
the text back only when at least one substitution succeeded.  A missing
file raises and is swallowed (`except: pass`). -/
def process_css_urls (env : Env) (st : St) (cssPath base : String) :
    St × List RefResult :=
  match lookupFile st.files cssPath with
  | none => (st, [])
  | some bytes =>
    let content := decodeUtf8Ignore bytes
    let r := runCssUrls env base (extractCssUrls content) st content false
    if r.2.2.1 then
      ({ r.1 with files := (cssPath, encodeUtf8 r.2.1) :: r.1.files }, r.2.2.2)
    else (r.1, r.2.2.2)

/-- The tracker substrings excluded by `process_js`. -/
def trackersJs : List String := ["google", "facebook", "analytics", "gtag", "hotjar"]

/-- The shared shape of the `process_images`, `process_js`, `process_fonts`
and `process_icons` loop bodies: resolve the raw reference against the page
URL, derive the filename with the pass's default extension, download into
the pass's directory, and rewrite the attribute to the pass's relative
prefix on success. -/
def handleSimple (env : Env) (st : St) (raw : String) (dir rel ext : String)
    (rt : RType) (k : RefKind) : St × List RefResult :=
  let abs := urljoin env.pageUrl raw
  let filename := sanitize_filename env.hsh abs ext
  let savePath := env.jobDir ++ dir ++ filename
  let dl := download_resource env st abs savePath rt
  (dl.1, [⟨k, raw, abs, savePath,
          if dl.2 then some (rel ++ filename) else none⟩])

/-- Processing of a single reference by its pass (the loop bodies of
`process_images`, `process_css`, `process_js`, `process_fonts` and
`process_icons`).  A skipped reference produces no record; otherwise the
record carries the rewritten attribute value on success and `none` on
failure (the source leaves the original attribute untouched then). -/
def handleRef (env : Env) (st : St) (r : Ref) : St × List RefResult :=
  match r.kind with
  | RefKind.img =>
    let src := pyStripStr r.url
    if src.toList.isEmpty || ("data:".toList).isPrefixOf src.toList then (st, [])
    else handleSimple env st src "/assets/images/" "assets/images/" ".jpg"
      RType.image RefKind.img
  | RefKind.cssLink =>
    let href := pyStripStr r.url
    if href.toList.isEmpty then (st, [])
    else
      let abs := urljoin env.pageUrl href
      let filename := sanitize_filename env.hsh abs ".css"
      let savePath := env.jobDir ++ "/css/" ++ filename
      let dl := download_resource env st abs savePath RType.css
      if dl.2 then
        let pc := process_css_urls env dl.1 savePath abs
        (pc.1, pc.2 ++ [⟨RefKind.cssLink, href, abs, savePath,
                        some ("css/" ++ filename)⟩])
      else
        (dl.1, [⟨RefKind.cssLink, href, abs, savePath, none⟩])
  | RefKind.script =>
    let src := pyStripStr r.url
    if src.toList.isEmpty
        || trackersJs.any (fun t => subIn t.toList (lowerChars src.toList)) then
      (st, [])
    else handleSimple env st src "/js/" "js/" ".js" RType.js RefKind.script
  | RefKind.fontPreload =>
    handleSimple env st (pyStripStr r.url) "/assets/fonts/" "assets/fonts/"
      ".woff2" RType.font RefKind.fontPreload
  | RefKind.iconLink =>
    handleSimple env st (pyStripStr r.url) "/assets/icons/" "assets/icons/"
      ".ico" RType.image RefKind.iconLink
  | RefKind.cssUrl => (st, [])

/-- Sequential processing of a reference list. -/
def runRefs (env : Env) (st : St) : List Ref → St × List RefResult
  | [] => (st, [])
  | r :: rest =>
    let h1 := handleRef env st r
    let h2 := runRefs env h1.1 rest
    (h2.1, h1.2 ++ h2.2)

/-- The pass order of `process_page`: all images, then stylesheets, then
scripts, then font preloads, then icons. -/
def kindOrder (doc : List Ref) : List Ref :=
  doc.filter (fun r => r.kind == RefKind.img) ++
  doc.filter (fun r => r.kind == RefKind.cssLink) ++
  doc.filter (fun r => r.kind == RefKind.script) ++
  doc.filter (fun r => r.kind == RefKind.fontPreload) ++
  doc.filter (fun r => r.kind == RefKind.iconLink)

/-- The state of a freshly constructed job: empty dedup set, empty output
tree. -/
def initSt : St := ⟨[], [], [], []⟩

/-- Model of `ClonerPro.process_page` from app/cloner.py, restricted to the five
asset passes (the tracker, form and base-tag pre-passes do not interact
with resource rewriting). -/
def process_page (env : Env) (doc : List Ref) : St × List RefResult :=
  runRefs env initSt (kindOrder doc)

/-! ## State-evolution lemmas for the harvester -/

/-- Monotone evolution of the harvester state: the dedup set, the persist
log and the set of existing files only grow. -/
def StLe (s t : St) : Prop :=
  (∀ u, u ∈ s.downloaded → u ∈ t.downloaded) ∧
  (∀ e, e ∈ s.writeLog → e ∈ t.writeLog) ∧
  (∀ p, (lookupFile s.files p).isSome = true → (lookupFile t.files p).isSome = true)

theorem StLe_refl (s : St) : StLe s s :=
  ⟨fun _ h => h, fun _ h => h, fun _ h => h⟩

theorem StLe_trans {s t v : St} (h1 : StLe s t) (h2 : StLe t v) : StLe s v :=
  ⟨fun u h => h2.1 u (h1.1 u h),
   fun e h => h2.2.1 e (h1.2.1 e h),
   fun p h => h2.2.2 p (h1.2.2 p h)⟩

/-- The dedup invariant: every URL in the dedup set has a validated persist
whose file still exists. -/
def Inv (st : St) : Prop :=
  ∀ u, u ∈ st.downloaded → ∃ e ∈ st.writeLog,
    e.url = u ∧ validatorFor e.rt e.content e.url = true ∧
    (lookupFile st.files e.path).isSome = true

/-- A reference record is healthy relative to a state when its rewritten
form, if any, is backed by a validated persist for its absolute URL whose
file exists. -/
def AlmostGood (st : St) (r : RefResult) : Prop :=
  ∀ s, r.rewritten = some s → ∃ e ∈ st.writeLog,
    e.url = r.abs ∧ validatorFor e.rt e.content e.url = true ∧
    (lookupFile st.files e.path).isSome = true

theorem AlmostGood_mono {s t : St} (h : StLe s t) (r : RefResult)
    (ha : AlmostGood s r) : AlmostGood t r := by
  intro s' hs'
  obtain ⟨e, he, h1, h2, h3⟩ := ha s' hs'
  exact ⟨e, h.2.1 e he, h1, h2, h.2.2 e.path h3⟩

theorem lookupFile_cons (q : String) (c : List Nat)
    (files : List (String × List Nat)) (p : String) :
    lookupFile ((q, c) :: files) p
      = if q == p then some c else lookupFile files p := by
  simp only [lookupFile, List.find?]
  cases hqp : (q == p) <;> simp [hqp]

theorem lookupFile_cons_isSome (q : String) (c : List Nat)
    (files : List (String × List Nat)) (p : String)
    (h : (lookupFile files p).isSome = true) :
    (lookupFile ((q, c) :: files) p).isSome = true := by
  rw [lookupFile_cons]
  cases hqp : (q == p) <;> simp [h]

/-- The fetch phase changes only the fetch log, appending the tried URL and
possibly its catalogued substitute. -/
theorem fetchPhase_eq_cdn (env : Env) (st : St) (url cdn : String)
    (hfc : falsyContent (env.fetch url) = true)
    (hcdn : get_cdn_url url = some cdn) :
    fetchPhase env st url
      = ({ st with fetchLog := (st.fetchLog ++ [url]) ++ [cdn] }, env.fetch cdn) := by
  unfold fetchPhase
  simp [hfc, hcdn]

theorem fetchPhase_eq_nocdn (env : Env) (st : St) (url : String)
    (hfc : falsyContent (env.fetch url) = true)
    (hcdn : get_cdn_url url = none) :
    fetchPhase env st url
      = ({ st with fetchLog := st.fetchLog ++ [url] }, env.fetch url) := by
  unfold fetchPhase
  simp [hfc, hcdn]

theorem fetchPhase_eq_direct (env : Env) (st : St) (url : String)
    (hfc : falsyContent (env.fetch url) = false) :
    fetchPhase env st url
      = ({ st with fetchLog := st.fetchLog ++ [url] }, env.fetch url) := by
  unfold fetchPhase
  simp [hfc]

theorem fetchPhase_fields (env : Env) (st : St) (url : String) :
    (fetchPhase env st url).1.downloaded = st.downloaded ∧
    (fetchPhase env st url).1.files = st.files ∧
    (fetchPhase env st url).1.writeLog = st.writeLog ∧
    ∃ fl, (fetchPhase env st url).1.fetchLog = st.fetchLog ++ fl ∧
      ∀ v ∈ fl, v = url ∨ v ∈ cdnTargets := by
  cases hfc : falsyContent (env.fetch url) with
  | true =>
    cases hcdn : get_cdn_url url with
    | some cdn =>
      rw [fetchPhase_eq_cdn env st url cdn hfc hcdn]
      refine ⟨rfl, rfl, rfl, [url, cdn], by simp, ?_⟩
      intro v hv
      simp only [List.mem_cons, List.mem_singleton, List.not_mem_nil, or_false] at hv
      rcases hv with rfl | rfl
      · exact Or.inl rfl
      · exact Or.inr (get_cdn_url_mem url _ hcdn)
    | none =>
      rw [fetchPhase_eq_nocdn env st url hfc hcdn]
      refine ⟨rfl, rfl, rfl, [url], rfl, ?_⟩
      intro v hv
      simp only [List.mem_singleton] at hv
      exact Or.inl hv
  | false =>
    rw [fetchPhase_eq_direct env st url hfc]
    refine ⟨rfl, rfl, rfl, [url], rfl, ?_⟩
    intro v hv
    simp only [List.mem_singleton] at hv
    exact Or.inl hv

/-- Running `download_resource` on an already-resolved URL is a pure dedup hit. -/
theorem download_resource_mem (env : Env) (st : St) (url savePath : String)
    (rt : RType) (h : url ∈ st.downloaded) :
    download_resource env st url savePath rt = (st, true) := by
  simp [download_resource, h]

/-- Function `download_resource` preserves the monotone order and the dedup
invariant, and a `true` return is always backed by a validated persist for
the requested URL. -/
theorem download_resource_spec (env : Env) (st : St) (url savePath : String)
    (rt : RType) :
    StLe st (download_resource env st url savePath rt).1 ∧
    (Inv st → Inv (download_resource env st url savePath rt).1) ∧
    (Inv st → (download_resource env st url savePath rt).2 = true →
      ∃ e ∈ (download_resource env st url savePath rt).1.writeLog,
        e.url = url ∧ validatorFor e.rt e.content e.url = true ∧
        (lookupFile (download_resource env st url savePath rt).1.files e.path).isSome
          = true) := by
  by_cases hmem : url ∈ st.downloaded
  · rw [download_resource_mem env st url savePath rt hmem]
    exact ⟨StLe_refl st, fun h => h, fun hinv _ => hinv url hmem⟩
  · obtain ⟨hd, hf, hw, fl, hfl, hflv⟩ := fetchPhase_fields env st url
    have hsame : StLe st (fetchPhase env st url).1 := by
      refine ⟨?_, ?_, ?_⟩
      · intro u h; rw [hd]; exact h
      · intro e h; rw [hw]; exact h
      · intro p h; rw [hf]; exact h
    have hinvsame : Inv st → Inv (fetchPhase env st url).1 := by
      intro hinv u hu
      rw [hd] at hu
      obtain ⟨e, he, h1, h2, h3⟩ := hinv u hu
      rw [hw, hf]
      exact ⟨e, he, h1, h2, h3⟩
    unfold download_resource
    rw [if_neg hmem]
    cases hres : (fetchPhase env st url).2 with
    | none =>
      simp only [hres]
      exact ⟨hsame, hinvsame, fun _ h => by simp at h⟩
    | some c =>
      by_cases hce : c.isEmpty
      · simp only [hres, hce, if_true]
        exact ⟨hsame, hinvsame, fun _ h => by simp at h⟩
      · cases hval : validatorFor rt c url with
        | false =>
          simp only [hres, hce, hval, Bool.false_eq_true, if_false]
          exact ⟨hsame, hinvsame, fun _ h => by simp at h⟩
        | true =>
          simp only [hres, hce, hval, Bool.false_eq_true, if_false, if_true]
          set fp := (fetchPhase env st url).1 with hfp
          set newEntry : WriteEntry := ⟨url, savePath, rt, c⟩ with hne
          set st2 : St := { fp with
            downloaded := url :: fp.downloaded,
            files := (savePath, env.opt rt c) :: fp.files,
            writeLog := fp.writeLog ++ [newEntry] } with hst2
          have hle : StLe st st2 := by
            refine ⟨?_, ?_, ?_⟩
            · intro u h
              have := hsame.1 u h
              simp [hst2]
              exact Or.inr this
            · intro e h
              have := hsame.2.1 e h
              simp [hst2]
              exact Or.inl this
            · intro p h
              have := hsame.2.2 p h
              simp only [hst2]
              exact lookupFile_cons_isSome savePath (env.opt rt c) fp.files p this
          refine ⟨hle, ?_, ?_⟩
          · intro hinv u hu
            simp only [hst2, List.mem_cons] at hu
            rcases hu with rfl | hu
            · refine ⟨newEntry, ?_, rfl, ?_, ?_⟩
              · simp [hst2]
              · simpa [hne] using hval
              · simp only [hst2, hne]
                rw [lookupFile_cons]
                simp
            · obtain ⟨e, he, h1, h2, h3⟩ := hinvsame hinv u (by rw [hd] at hu ⊢; exact hu)
              refine ⟨e, ?_, h1, h2, ?_⟩
              · simp [hst2]
                exact Or.inl he
              · simp only [hst2]
                exact lookupFile_cons_isSome savePath (env.opt rt c) fp.files e.path h3
          · intro _ _
            refine ⟨newEntry, ?_, rfl, ?_, ?_⟩
            · simp [hst2]
            · simpa [hne] using hval
            · simp only [hst2, hne]
              rw [lookupFile_cons]
              simp

theorem StLe_consFile (r : St) (q : String) (c : List Nat) :
    StLe r { r with files := (q, c) :: r.files } :=
  ⟨fun _ h => h, fun _ h => h, fun p h => lookupFile_cons_isSome q c r.files p h⟩

theorem Inv_consFile (r : St) (q : String) (c : List Nat) (hinv : Inv r) :
    Inv { r with files := (q, c) :: r.files } := by
  intro u hu
  obtain ⟨e, he, h1, h2, h3⟩ := hinv u hu
  exact ⟨e, he, h1, h2, lookupFile_cons_isSome q c r.files e.path h3⟩

theorem runCssUrls_spec (env : Env) (cssBase : String) (raws : List (List Char))
    (st : St) (content : List Char) (modified : Bool) :
    StLe st (runCssUrls env cssBase raws st content modified).1 ∧
    (Inv st → Inv (runCssUrls env cssBase raws st content modified).1) ∧
    (Inv st → ∀ x ∈ (runCssUrls env cssBase raws st content modified).2.2.2,
      AlmostGood (runCssUrls env cssBase raws st content modified).1 x) := by
  induction raws generalizing st content modified with
  | nil =>
    simp only [runCssUrls]
    exact ⟨StLe_refl st, fun h => h, fun _ x hx => by simp at hx⟩
  | cons raw rest ih =>
    cases hplan : cssUrlPlan env cssBase raw with
    | none =>
      simp only [runCssUrls, hplan]
      exact ih st content modified
    | some plan =>
      obtain ⟨abs, savePath, rel, rt⟩ := plan
      obtain ⟨hdle, hdinv, hdgood⟩ := download_resource_spec env st abs savePath rt
      simp only [runCssUrls, hplan]
      cases hdl : (download_resource env st abs savePath rt).2 with
      | true =>
        simp only [hdl, if_true]
        obtain ⟨hle2, hinv2, hgood2⟩ :=
          ih (download_resource env st abs savePath rt).1
            (replaceAll content raw rel.toList) true
        refine ⟨StLe_trans hdle hle2, fun hi => hinv2 (hdinv hi), ?_⟩
        intro hi x hx
        simp only [List.mem_cons] at hx
        rcases hx with rfl | hx
        · intro s hs
          obtain ⟨e, he, h1, h2, h3⟩ := hdgood hi hdl
          obtain ⟨hh1, hh2, hh3⟩ := hle2
          exact ⟨e, hh2 e he, h1, h2, hh3 e.path h3⟩
        · exact hgood2 (hdinv hi) x hx
      | false =>
        simp only [hdl, Bool.false_eq_true, if_false]
        obtain ⟨hle2, hinv2, hgood2⟩ :=
          ih (download_resource env st abs savePath rt).1 content modified
        refine ⟨StLe_trans hdle hle2, fun hi => hinv2 (hdinv hi), ?_⟩
        intro hi x hx
        simp only [List.mem_cons] at hx
        rcases hx with rfl | hx
        · intro s hs
          simp at hs
        · exact hgood2 (hdinv hi) x hx

theorem process_css_urls_spec (env : Env) (st : St) (cssPath base : String) :
    StLe st (process_css_urls env st cssPath base).1 ∧
    (Inv st → Inv (process_css_urls env st cssPath base).1) ∧
    (Inv st → ∀ x ∈ (process_css_urls env st cssPath base).2,
      AlmostGood (process_css_urls env st cssPath base).1 x) := by
  cases hlk : lookupFile st.files cssPath with
  | none =>
    simp only [process_css_urls, hlk]
    exact ⟨StLe_refl st, fun h => h, fun _ x hx => by simp at hx⟩
  | some bytes =>
    obtain ⟨h1, h2, h3⟩ := runCssUrls_spec env base
      (extractCssUrls (decodeUtf8Ignore bytes)) st (decodeUtf8Ignore bytes) false
    simp only [process_css_urls, hlk]
    cases hmod : (runCssUrls env base (extractCssUrls (decodeUtf8Ignore bytes))
        st (decodeUtf8Ignore bytes) false).2.2.1 with
    | false =>
      simp only [hmod, Bool.false_eq_true, if_false]
      exact ⟨h1, h2, h3⟩
    | true =>
      simp only [hmod, if_true]
      set r := runCssUrls env base (extractCssUrls (decodeUtf8Ignore bytes))
        st (decodeUtf8Ignore bytes) false with hr
      refine ⟨StLe_trans h1 (StLe_consFile r.1 cssPath (encodeUtf8 r.2.1)), ?_, ?_⟩
      · intro hi
        exact Inv_consFile r.1 cssPath (encodeUtf8 r.2.1) (h2 hi)
      · intro hi x hx
        exact AlmostGood_mono (StLe_consFile r.1 cssPath (encodeUtf8 r.2.1)) x
          (h3 hi x hx)

theorem handleSimple_spec (env : Env) (st : St) (raw dir rel ext : String)
    (rt : RType) (k : RefKind) :
    StLe st (handleSimple env st raw dir rel ext rt k).1 ∧
    (Inv st → Inv (handleSimple env st raw dir rel ext rt k).1) ∧
    (Inv st → ∀ x ∈ (handleSimple env st raw dir rel ext rt k).2,
      AlmostGood (handleSimple env st raw dir rel ext rt k).1 x) := by
  obtain ⟨h1, h2, h3⟩ := download_resource_spec env st (urljoin env.pageUrl raw)
    (env.jobDir ++ dir ++ sanitize_filename env.hsh (urljoin env.pageUrl raw) ext) rt
  refine ⟨h1, h2, ?_⟩
  intro hi x hx
  simp only [handleSimple, List.mem_singleton] at hx
  subst hx
  intro s hs
  simp only at hs
  cases hdl : (download_resource env st (urljoin env.pageUrl raw)
      (env.jobDir ++ dir ++ sanitize_filename env.hsh (urljoin env.pageUrl raw) ext)
      rt).2 with
  | false => rw [hdl] at hs; simp at hs
  | true => exact h3 hi hdl
  -- the remaining goal matches the persist property for the requested URL

theorem handleRef_spec (env : Env) (st : St) (r : Ref) :
    StLe st (handleRef env st r).1 ∧
    (Inv st → Inv (handleRef env st r).1) ∧
    (Inv st → ∀ x ∈ (handleRef env st r).2,
      AlmostGood (handleRef env st r).1 x) := by
  obtain ⟨k, u⟩ := r
  cases k with
  | img =>
    simp only [handleRef]
    split
    · exact ⟨StLe_refl st, fun h => h, fun _ x hx => by simp at hx⟩
    · exact handleSimple_spec env st (pyStripStr u) "/assets/images/"
        "assets/images/" ".jpg" RType.image RefKind.img
  | script =>
    simp only [handleRef]
    split
    · exact ⟨StLe_refl st, fun h => h, fun _ x hx => by simp at hx⟩
    · exact handleSimple_spec env st (pyStripStr u) "/js/" "js/" ".js"
        RType.js RefKind.script
  | fontPreload =>
    exact handleSimple_spec env st (pyStripStr u) "/assets/fonts/"
      "assets/fonts/" ".woff2" RType.font RefKind.fontPreload
  | iconLink =>
    exact handleSimple_spec env st (pyStripStr u) "/assets/icons/"
      "assets/icons/" ".ico" RType.image RefKind.iconLink
  | cssUrl =>
    simp only [handleRef]
    exact ⟨StLe_refl st, fun h => h, fun _ x hx => by simp at hx⟩
  | cssLink =>
    simp only [handleRef]
    split
    · exact ⟨StLe_refl st, fun h => h, fun _ x hx => by simp at hx⟩
    · obtain ⟨h1, h2, h3⟩ := download_resource_spec env st
        (urljoin env.pageUrl (pyStripStr u))
        (env.jobDir ++ "/css/" ++
          sanitize_filename env.hsh (urljoin env.pageUrl (pyStripStr u)) ".css")
        RType.css
      cases hdl : (download_resource env st (urljoin env.pageUrl (pyStripStr u))
          (env.jobDir ++ "/css/" ++
            sanitize_filename env.hsh (urljoin env.pageUrl (pyStripStr u)) ".css")
          RType.css).2 with
      | false =>
        simp only [hdl, Bool.false_eq_true, if_false]
        refine ⟨h1, h2, ?_⟩
        intro hi x hx
        simp only [List.mem_singleton] at hx
        subst hx
        intro s hs
        simp at hs
      | true =>
        simp only [hdl, if_true]
        obtain ⟨p1, p2, p3⟩ := process_css_urls_spec env
          (download_resource env st (urljoin env.pageUrl (pyStripStr u))
            (env.jobDir ++ "/css/" ++
              sanitize_filename env.hsh (urljoin env.pageUrl (pyStripStr u)) ".css")
            RType.css).1
          (env.jobDir ++ "/css/" ++
            sanitize_filename env.hsh (urljoin env.pageUrl (pyStripStr u)) ".css")
          (urljoin env.pageUrl (pyStripStr u))
        refine ⟨StLe_trans h1 p1, fun hi => p2 (h2 hi), ?_⟩
        intro hi x hx
        simp only [List.mem_append, List.mem_singleton] at hx
        rcases hx with hx | rfl
        · exact p3 (h2 hi) x hx
        · intro s hs
          obtain ⟨e, he, he1, he2, he3⟩ := h3 hi hdl
          exact ⟨e, p1.2.1 e he, he1, he2, p1.2.2 e.path he3⟩

theorem runRefs_spec (env : Env) (refs : List Ref) (st : St) :
    StLe st (runRefs env st refs).1 ∧
    (Inv st → Inv (runRefs env st refs).1) ∧
    (Inv st → ∀ x ∈ (runRefs env st refs).2,
      AlmostGood (runRefs env st refs).1 x) := by
  induction refs generalizing st with
  | nil =>
    simp only [runRefs]
    exact ⟨StLe_refl st, fun h => h, fun _ x hx => by simp at hx⟩
  | cons r rest ih =>
    obtain ⟨h1, h2, h3⟩ := handleRef_spec env st r
    obtain ⟨g1, g2, g3⟩ := ih (handleRef env st r).1
    simp only [runRefs]
    refine ⟨StLe_trans h1 g1, fun hi => g2 (h2 hi), ?_⟩
    intro hi x hx
    simp only [List.mem_append] at hx
    rcases hx with hx | hx
    · exact AlmostGood_mono g1 x (h3 hi x hx)
    · exact g3 (h2 hi) x hx

/-! ### Claim C1 -/

/-- Concrete job for the C1 counterexample: the same canonical URL is
referenced both by an `<img>` tag and by an icon `<link>`, and the fetch
returns a valid PNG. -/
def envC1 : Env :=
  ⟨fun u => if u = "https://a.test/logo.png" then some [137, 80, 78, 71, 1, 2]
    else none,
   fun _ c => c, fun _ => "h", "https://a.test/page", "out"⟩

/-- The C1 counterexample document: an image and an icon referencing the
same canonical URL. -/
def docC1 : List Ref :=
  [⟨RefKind.img, "https://a.test/logo.png"⟩,
   ⟨RefKind.iconLink, "https://a.test/logo.png"⟩]

/-- C1, counterexample.  The claim says every rewritten reference points to
an existing, validated file.  The image pass downloads the URL into
`assets/images/` and marks it resolved; the icon pass then hits the dedup
short-circuit, which returns success without writing anything under
`assets/icons/`, and the icon's `href` is rewritten to
`assets/icons/logo.png` — a path at which no file exists. -/
theorem c1_counterexample :
    (⟨RefKind.iconLink, "https://a.test/logo.png", "https://a.test/logo.png",
      "out/assets/icons/logo.png", some "assets/icons/logo.png"⟩ : RefResult)
      ∈ (process_page envC1 docC1).2 ∧
    (lookupFile (process_page envC1 docC1).1.files
      "out/assets/icons/logo.png").isSome = false := by decide

/-- C1, amended: provided all successfully rewritten references that share
one canonical URL are also given the same save path (no URL is referenced
under two different kind-directories or filenames — the situation the
counterexample exhibits), every rewritten reference's save path carries an
existing file under the job's output directory, backed by a persist that
passed the kind-appropriate validation (`font` kind: no check, see C10). -/
theorem c1_amended (env : Env) (doc : List Ref)
    (Hcons : ∀ r ∈ (process_page env doc).2,
      ∀ e ∈ (process_page env doc).1.writeLog,
      r.rewritten.isSome = true → e.url = r.abs → e.path = r.target) :
    ∀ r ∈ (process_page env doc).2, ∀ s, r.rewritten = some s →
      (lookupFile (process_page env doc).1.files r.target).isSome = true ∧
      ∃ e ∈ (process_page env doc).1.writeLog,
        e.url = r.abs ∧ e.path = r.target ∧
        validatorFor e.rt e.content e.url = true := by
  intro r hr s hs
  obtain ⟨h1, h2, h3⟩ := runRefs_spec env (kindOrder doc) initSt
  have hinv0 : Inv initSt := by intro u hu; simp [initSt] at hu
  obtain ⟨e, he, he1, he2, he3⟩ := h3 hinv0 r hr s hs
  have hpath : e.path = r.target := Hcons r hr e he (by simp [hs]) he1
  refine ⟨?_, e, he, he1, hpath, he2⟩
  rw [← hpath]
  exact he3

/-- Concrete job for the C1 witness: a single image reference resolving to
a valid PNG. -/
def envC1w : Env :=
  ⟨fun u => if u = "https://a.test/logo.png" then some [137, 80, 78, 71, 1, 2]
    else none,
   fun _ c => c, fun _ => "h", "https://a.test/page", "out"⟩

/-- The C1 witness document. -/
def docC1w : List Ref := [⟨RefKind.img, "https://a.test/logo.png"⟩]

/-- C1, witness: the amended theorem applied to a one-image job whose
rewritten reference does point at the persisted, validated file. -/
theorem c1_amended_witness :
    (lookupFile (process_page envC1w docC1w).1.files
      "out/assets/images/logo.png").isSome = true :=
  (c1_amended envC1w docC1w (by decide)
    ⟨RefKind.img, "https://a.test/logo.png", "https://a.test/logo.png",
     "out/assets/images/logo.png", some "assets/images/logo.png"⟩
    (by decide) "assets/images/logo.png" (by decide)).1

/-! ### Claim C2 -/

theorem download_resource_count (env : Env) (st : St) (url savePath : String)
    (rt : RType) (u : String) (hu : u ∈ st.downloaded) (hcdn : u ∉ cdnTargets) :
    (download_resource env st url savePath rt).1.fetchLog.count u
      = st.fetchLog.count u ∧
    u ∈ (download_resource env st url savePath rt).1.downloaded := by
  by_cases hmem : url ∈ st.downloaded
  · rw [download_resource_mem env st url savePath rt hmem]
    exact ⟨rfl, hu⟩
  · have hne : url ≠ u := fun h => hmem (h ▸ hu)
    obtain ⟨hd, hf, hw, fl, hfl, hflv⟩ := fetchPhase_fields env st url
    have hcount : (fetchPhase env st url).1.fetchLog.count u
        = st.fetchLog.count u := by
      rw [hfl, List.count_append]
      have hzero : fl.count u = 0 := by
        rw [List.count_eq_zero]
        intro hvin
        rcases hflv u hvin with h | h
        · exact hne h.symm
        · exact hcdn h
      omega
    have hmemu : u ∈ (fetchPhase env st url).1.downloaded := by
      rw [hd]; exact hu
    unfold download_resource
    rw [if_neg hmem]
    cases hres : (fetchPhase env st url).2 with
    | none =>
      simp only [hres]
      exact ⟨hcount, hmemu⟩
    | some c =>
      by_cases hce : c.isEmpty
      · simp only [hres, hce, if_true]
        exact ⟨hcount, hmemu⟩
      · cases hval : validatorFor rt c url with
        | false =>
          simp only [hres, hce, hval, Bool.false_eq_true, if_false]
          exact ⟨hcount, hmemu⟩
        | true =>
          simp only [hres, hce, hval, Bool.false_eq_true, if_false, if_true]
          exact ⟨hcount, List.mem_cons_of_mem url hmemu⟩

theorem runCssUrls_count (env : Env) (cssBase : String) (raws : List (List Char))
    (st : St) (content : List Char) (modified : Bool) (u : String)
    (hu : u ∈ st.downloaded) (hcdn : u ∉ cdnTargets) :
    (runCssUrls env cssBase raws st content modified).1.fetchLog.count u
      = st.fetchLog.count u ∧
    u ∈ (runCssUrls env cssBase raws st content modified).1.downloaded := by
  induction raws generalizing st content modified with
  | nil => exact ⟨rfl, hu⟩
  | cons raw rest ih =>
    cases hplan : cssUrlPlan env cssBase raw with
    | none =>
      simp only [runCssUrls, hplan]
      exact ih st content modified hu
    | some plan =>
      obtain ⟨abs, savePath, rel, rt⟩ := plan
      obtain ⟨hc, hm⟩ := download_resource_count env st abs savePath rt u hu hcdn
      simp only [runCssUrls, hplan]
      cases hdl : (download_resource env st abs savePath rt).2 with
      | true =>
        simp only [hdl, if_true]
        obtain ⟨gc, gm⟩ := ih (download_resource env st abs savePath rt).1
          (replaceAll content raw rel.toList) true hm
        exact ⟨gc.trans hc, gm⟩
      | false =>
        simp only [hdl, Bool.false_eq_true, if_false]
        obtain ⟨gc, gm⟩ := ih (download_resource env st abs savePath rt).1
          content modified hm
        exact ⟨gc.trans hc, gm⟩

theorem process_css_urls_count (env : Env) (st : St) (cssPath base : String)
    (u : String) (hu : u ∈ st.downloaded) (hcdn : u ∉ cdnTargets) :
    (process_css_urls env st cssPath base).1.fetchLog.count u
      = st.fetchLog.count u ∧
    u ∈ (process_css_urls env st cssPath base).1.downloaded := by
  cases hlk : lookupFile st.files cssPath with
  | none =>
    simp only [process_css_urls, hlk]
    exact ⟨by trivial, hu⟩
  | some bytes =>
    obtain ⟨hc, hm⟩ := runCssUrls_count env base
      (extractCssUrls (decodeUtf8Ignore bytes)) st (decodeUtf8Ignore bytes)
      false u hu hcdn
    simp only [process_css_urls, hlk]
    cases hmod : (runCssUrls env base (extractCssUrls (decodeUtf8Ignore bytes))
        st (decodeUtf8Ignore bytes) false).2.2.1 with
    | false =>
      simp only [hmod, Bool.false_eq_true, if_false]
      exact ⟨hc, hm⟩
    | true =>
      simp only [hmod, if_true]
      exact ⟨hc, hm⟩

theorem handleSimple_count (env : Env) (st : St) (raw dir rel ext : String)
    (rt : RType) (k : RefKind) (u : String)
    (hu : u ∈ st.downloaded) (hcdn : u ∉ cdnTargets) :
    (handleSimple env st raw dir rel ext rt k).1.fetchLog.count u
      = st.fetchLog.count u ∧
    u ∈ (handleSimple env st raw dir rel ext rt k).1.downloaded :=
  download_resource_count env st (urljoin env.pageUrl raw)
    (env.jobDir ++ dir ++ sanitize_filename env.hsh (urljoin env.pageUrl raw) ext)
    rt u hu hcdn

theorem handleRef_count (env : Env) (st : St) (r : Ref) (u : String)
    (hu : u ∈ st.downloaded) (hcdn : u ∉ cdnTargets) :
    (handleRef env st r).1.fetchLog.count u = st.fetchLog.count u ∧
    u ∈ (handleRef env st r).1.downloaded := by
  obtain ⟨k, w⟩ := r
  cases k with
  | img =>
    simp only [handleRef]
    split
    · exact ⟨rfl, hu⟩
    · exact handleSimple_count env st (pyStripStr w) "/assets/images/"
        "assets/images/" ".jpg" RType.image RefKind.img u hu hcdn
  | script =>
    simp only [handleRef]
    split
    · exact ⟨rfl, hu⟩
    · exact handleSimple_count env st (pyStripStr w) "/js/" "js/" ".js"
        RType.js RefKind.script u hu hcdn
  | fontPreload =>
    exact handleSimple_count env st (pyStripStr w) "/assets/fonts/"
      "assets/fonts/" ".woff2" RType.font RefKind.fontPreload u hu hcdn
  | iconLink =>
    exact handleSimple_count env st (pyStripStr w) "/assets/icons/"
      "assets/icons/" ".ico" RType.image RefKind.iconLink u hu hcdn
  | cssUrl =>
    simp only [handleRef]
    exact ⟨by trivial, hu⟩
  | cssLink =>
    simp only [handleRef]
    split
    · exact ⟨rfl, hu⟩
    · obtain ⟨hc, hm⟩ := download_resource_count env st
        (urljoin env.pageUrl (pyStripStr w))
        (env.jobDir ++ "/css/" ++
          sanitize_filename env.hsh (urljoin env.pageUrl (pyStripStr w)) ".css")
        RType.css u hu hcdn
      cases hdl : (download_resource env st (urljoin env.pageUrl (pyStripStr w))
          (env.jobDir ++ "/css/" ++
            sanitize_filename env.hsh (urljoin env.pageUrl (pyStripStr w)) ".css")
          RType.css).2 with
      | false =>
        simp only [hdl, Bool.false_eq_true, if_false]
        exact ⟨hc, hm⟩
      | true =>
        simp only [hdl, if_true]
        obtain ⟨gc, gm⟩ := process_css_urls_count env
          (download_resource env st (urljoin env.pageUrl (pyStripStr w))
            (env.jobDir ++ "/css/" ++
              sanitize_filename env.hsh
                (urljoin env.pageUrl (pyStripStr w)) ".css") RType.css).1
          (env.jobDir ++ "/css/" ++
            sanitize_filename env.hsh (urljoin env.pageUrl (pyStripStr w)) ".css")
          (urljoin env.pageUrl (pyStripStr w)) u hm hcdn
        exact ⟨gc.trans hc, gm⟩

theorem runRefs_count (env : Env) (refs : List Ref) (st : St) (u : String)
    (hu : u ∈ st.downloaded) (hcdn : u ∉ cdnTargets) :
    (runRefs env st refs).1.fetchLog.count u = st.fetchLog.count u ∧
    u ∈ (runRefs env st refs).1.downloaded := by
  induction refs generalizing st with
  | nil => exact ⟨rfl, hu⟩
  | cons r rest ih =>
    obtain ⟨hc, hm⟩ := handleRef_count env st r u hu hcdn
    obtain ⟨gc, gm⟩ := ih (handleRef env st r).1 hm
    simp only [runRefs]
    exact ⟨gc.trans hc, gm⟩

/-- The rewritten attribute value produced for a reference of a given kind
and absolute URL (top-level kinds only). -/
def relOfKind (env : Env) (k : RefKind) (abs : String) : String :=
  match k with
  | RefKind.img => "assets/images/" ++ sanitize_filename env.hsh abs ".jpg"
  | RefKind.cssLink => "css/" ++ sanitize_filename env.hsh abs ".css"
  | RefKind.script => "js/" ++ sanitize_filename env.hsh abs ".js"
  | RefKind.fontPreload => "assets/fonts/" ++ sanitize_filename env.hsh abs ".woff2"
  | RefKind.iconLink => "assets/icons/" ++ sanitize_filename env.hsh abs ".ico"
  | RefKind.cssUrl => ""

/-- The save path used for a reference of a given kind and absolute URL
(top-level kinds only). -/
def targetOfKind (env : Env) (k : RefKind) (abs : String) : String :=
  match k with
  | RefKind.img => env.jobDir ++ "/assets/images/" ++ sanitize_filename env.hsh abs ".jpg"
  | RefKind.cssLink => env.jobDir ++ "/css/" ++ sanitize_filename env.hsh abs ".css"
  | RefKind.script => env.jobDir ++ "/js/" ++ sanitize_filename env.hsh abs ".js"
  | RefKind.fontPreload => env.jobDir ++ "/assets/fonts/" ++ sanitize_filename env.hsh abs ".woff2"
  | RefKind.iconLink => env.jobDir ++ "/assets/icons/" ++ sanitize_filename env.hsh abs ".ico"
  | RefKind.cssUrl => ""

theorem runCssUrls_kinds (env : Env) (cssBase : String) (raws : List (List Char))
    (st : St) (content : List Char) (modified : Bool) :
    ∀ x ∈ (runCssUrls env cssBase raws st content modified).2.2.2,
      x.kind = RefKind.cssUrl := by
  induction raws generalizing st content modified with
  | nil => intro x hx; simp [runCssUrls] at hx
  | cons raw rest ih =>
    intro x hx
    cases hplan : cssUrlPlan env cssBase raw with
    | none =>
      simp only [runCssUrls, hplan] at hx
      exact ih st content modified x hx
    | some plan =>
      obtain ⟨abs, savePath, rel, rt⟩ := plan
      simp only [runCssUrls, hplan] at hx
      cases hdl : (download_resource env st abs savePath rt).2 with
      | true =>
        simp only [hdl, if_true, List.mem_cons] at hx
        rcases hx with rfl | hx
        · rfl
        · exact ih _ _ _ x hx
      | false =>
        simp only [hdl, Bool.false_eq_true, if_false, List.mem_cons] at hx
        rcases hx with rfl | hx
        · rfl
        · exact ih _ _ _ x hx

theorem process_css_urls_kinds (env : Env) (st : St) (cssPath base : String) :
    ∀ x ∈ (process_css_urls env st cssPath base).2, x.kind = RefKind.cssUrl := by
  intro x hx
  cases hlk : lookupFile st.files cssPath with
  | none => simp only [process_css_urls, hlk] at hx; simp at hx
  | some bytes =>
    simp only [process_css_urls, hlk] at hx
    cases hmod : (runCssUrls env base (extractCssUrls (decodeUtf8Ignore bytes))
        st (decodeUtf8Ignore bytes) false).2.2.1 with
    | false =>
      simp only [hmod, Bool.false_eq_true, if_false] at hx
      exact runCssUrls_kinds env base _ st _ false x hx
    | true =>
      simp only [hmod, if_true] at hx
      exact runCssUrls_kinds env base _ st _ false x hx

theorem handleSimple_shape (env : Env) (st : St) (raw dir rel ext : String)
    (rt : RType) (k : RefKind) :
    ∀ x ∈ (handleSimple env st raw dir rel ext rt k).2,
      x.kind = k ∧ x.abs = urljoin env.pageUrl raw ∧
      x.target = env.jobDir ++ dir ++ sanitize_filename env.hsh x.abs ext ∧
      ∀ s, x.rewritten = some s →
        s = rel ++ sanitize_filename env.hsh x.abs ext := by
  intro x hx
  simp only [handleSimple, List.mem_singleton] at hx
  subst hx
  refine ⟨rfl, rfl, rfl, ?_⟩
  intro s hs
  simp only at hs
  cases hdl : (download_resource env st (urljoin env.pageUrl raw)
      (env.jobDir ++ dir ++ sanitize_filename env.hsh (urljoin env.pageUrl raw) ext)
      rt).2 with
  | false => rw [hdl] at hs; simp at hs
  | true =>
    rw [hdl] at hs
    simp at hs
    exact hs.symm

theorem handleRef_shape (env : Env) (st : St) (r : Ref) :
    ∀ x ∈ (handleRef env st r).2, x.kind ≠ RefKind.cssUrl →
      ∀ s, x.rewritten = some s →
        s = relOfKind env x.kind x.abs ∧
        x.target = targetOfKind env x.kind x.abs := by
  obtain ⟨k, w⟩ := r
  intro x hx hk s hs
  cases k with
  | img =>
    simp only [handleRef] at hx
    split at hx
    · simp at hx
    · obtain ⟨e1, e2, e3, e4⟩ := handleSimple_shape env st (pyStripStr w)
        "/assets/images/" "assets/images/" ".jpg" RType.image RefKind.img x hx
      rw [e1]
      exact ⟨e4 s hs, e3⟩
  | script =>
    simp only [handleRef] at hx
    split at hx
    · simp at hx
    · obtain ⟨e1, e2, e3, e4⟩ := handleSimple_shape env st (pyStripStr w)
        "/js/" "js/" ".js" RType.js RefKind.script x hx
      rw [e1]
      exact ⟨e4 s hs, e3⟩
  | fontPreload =>
    obtain ⟨e1, e2, e3, e4⟩ := handleSimple_shape env st (pyStripStr w)
      "/assets/fonts/" "assets/fonts/" ".woff2" RType.font RefKind.fontPreload x hx
    rw [e1]
    exact ⟨e4 s hs, e3⟩
  | iconLink =>
    obtain ⟨e1, e2, e3, e4⟩ := handleSimple_shape env st (pyStripStr w)
      "/assets/icons/" "assets/icons/" ".ico" RType.image RefKind.iconLink x hx
    rw [e1]
    exact ⟨e4 s hs, e3⟩
  | cssUrl =>
    simp only [handleRef] at hx
    simp at hx
  | cssLink =>
    simp only [handleRef] at hx
    split at hx
    · simp at hx
    · cases hdl : (download_resource env st (urljoin env.pageUrl (pyStripStr w))
          (env.jobDir ++ "/css/" ++
            sanitize_filename env.hsh (urljoin env.pageUrl (pyStripStr w)) ".css")
          RType.css).2 with
      | false =>
        rw [hdl] at hx
        simp only [Bool.false_eq_true, if_false, List.mem_singleton] at hx
        subst hx
        simp at hs
      | true =>
        rw [hdl] at hx
        simp only [if_true, List.mem_append, List.mem_singleton] at hx
        rcases hx with hx | rfl
        · exact absurd (process_css_urls_kinds env _ _ _ x hx) hk
        · simp only at hs
          cases hs
          exact ⟨rfl, rfl⟩

theorem runRefs_shape (env : Env) (refs : List Ref) (st : St) :
    ∀ x ∈ (runRefs env st refs).2, x.kind ≠ RefKind.cssUrl →
      ∀ s, x.rewritten = some s →
        s = relOfKind env x.kind x.abs ∧
        x.target = targetOfKind env x.kind x.abs := by
  induction refs generalizing st with
  | nil => intro x hx; simp [runRefs] at hx
  | cons r rest ih =>
    intro x hx hk s hs
    simp only [runRefs, List.mem_append] at hx
    rcases hx with hx | hx
    · exact handleRef_shape env st r x hx hk s hs
    · exact ih (handleRef env st r).1 x hx hk s hs

/-- Concrete job for the C2 counterexample: both fetches of the repeated
image URL fail (the server answers non-200), so the dedup set is never
populated for it. -/
def envC2 : Env :=
  ⟨fun _ => none, fun _ c => c, fun _ => "h", "https://a.test/page", "out"⟩

/-- The C2 counterexample document: the same canonical URL referenced by
two `<img>` tags. -/
def docC2 : List Ref :=
  [⟨RefKind.img, "https://a.test/logo.png"⟩,
   ⟨RefKind.img, "https://a.test/logo.png"⟩]

/-- C2, counterexample.  The claim says at most one fetch is ever issued
per canonical URL.  `download_resource` records a URL in the dedup set only
after a successful, validated persist, so when the first fetch fails the
second markup reference to the same URL issues a second fetch: the fetch
log contains the URL twice. -/
theorem c2_counterexample :
    (process_page envC2 docC2).1.fetchLog.count "https://a.test/logo.png" = 2 := by
  decide

/-- C2, amended: (i) once a canonical URL is in the dedup set it is never
fetched again — provided it is not itself one of the catalogued CDN
substitute URLs, which a fallback for a *different* failing URL may
re-fetch — and it stays resolved; a URL whose resolution failed may be
fetched again at its next reference.  (ii) all markup locations of the
same reference kind sharing one canonical URL are rewritten to the same
relative path and the same save path; locations of different kinds use
their own kind directory (see C1's counterexample). -/
theorem c2_amended (env : Env) :
    (∀ (refs : List Ref) (st : St) (u : String),
      u ∈ st.downloaded → u ∉ cdnTargets →
      (runRefs env st refs).1.fetchLog.count u = st.fetchLog.count u ∧
      u ∈ (runRefs env st refs).1.downloaded) ∧
    (∀ (doc : List Ref) (r1 r2 : RefResult) (s1 s2 : String),
      r1 ∈ (process_page env doc).2 → r2 ∈ (process_page env doc).2 →
      r1.kind = r2.kind → r1.kind ≠ RefKind.cssUrl → r1.abs = r2.abs →
      r1.rewritten = some s1 → r2.rewritten = some s2 →
      s1 = s2 ∧ r1.target = r2.target) := by
  constructor
  · intro refs st u hu hcdn
    exact runRefs_count env refs st u hu hcdn
  · intro doc r1 r2 s1 s2 h1 h2 hkind hnc habs hs1 hs2
    obtain ⟨e1, e1t⟩ := runRefs_shape env (kindOrder doc) initSt r1 h1 hnc s1 hs1
    obtain ⟨e2, e2t⟩ := runRefs_shape env (kindOrder doc) initSt r2 h2
      (hkind ▸ hnc) s2 hs2
    rw [e1, e2, e1t, e2t, hkind, habs]
    exact ⟨rfl, rfl⟩

/-- Concrete instance for the C2 witness: the repeated URL is already in
the dedup set. -/
def envC2w : Env :=
  ⟨fun _ => none, fun _ c => c, fun _ => "h", "https://a.test/page", "out"⟩

/-- Witness state: the URL was already resolved. -/
def stC2w : St := ⟨["https://a.test/x.png"], [], [], []⟩

/-- Witness references: another image tag naming the resolved URL. -/
def refsC2w : List Ref := [⟨RefKind.img, "https://a.test/x.png"⟩]

/-- C2, witness: the amended theorem applied to a state where the URL is
already resolved — processing a further reference issues no fetch at all
for it. -/
theorem c2_amended_witness :
    (runRefs envC2w stC2w refsC2w).1.fetchLog.count "https://a.test/x.png"
      = stC2w.fetchLog.count "https://a.test/x.png" ∧
    "https://a.test/x.png" ∈ (runRefs envC2w stC2w refsC2w).1.downloaded :=
  (c2_amended envC2w).1 refsC2w stC2w "https://a.test/x.png" (by decide)
    (by decide)

/-! ### Claim C4 -/

/-- C4, confirmed: when the fetched (primary or fallback) payload is
non-falsy but fails the kind-appropriate validator, `download_resource`
returns failure, writes nothing, and leaves the dedup set unchanged — the
only state change is the fetch-attempt log. -/
theorem c4_validation_failure (env : Env) (st : St) (url savePath : String)
    (rt : RType) (p : List Nat)
    (h0 : url ∉ st.downloaded)
    (h1 : (fetchPhase env st url).2 = some p)
    (h2 : p.isEmpty = false)
    (h3 : validatorFor rt p url = false) :
    download_resource env st url savePath rt = ((fetchPhase env st url).1, false) ∧
    (fetchPhase env st url).1.downloaded = st.downloaded ∧
    (fetchPhase env st url).1.files = st.files ∧
    (fetchPhase env st url).1.writeLog = st.writeLog := by
  obtain ⟨hd, hf, hw, _⟩ := fetchPhase_fields env st url
  refine ⟨?_, hd, hf, hw⟩
  unfold download_resource
  rw [if_neg h0]
  simp only [h1, h2, h3, Bool.false_eq_true, if_false]

/-- Concrete job for the C4 witness: the server answers 200 with an HTML
error page for a stylesheet URL, which `is_valid_css` rejects. -/
def envC4 : Env :=
  ⟨fun u => if u = "https://a.test/app.css" then some (strBytes "<html>404</html>")
    else none,
   fun _ c => c, fun _ => "h", "https://a.test/page", "out"⟩

/-- C4, witness: the confirmed theorem applied to a rejected stylesheet
payload — the run returns failure and the state records only the fetch
attempt. -/
theorem c4_validation_failure_witness :
    download_resource envC4 initSt "https://a.test/app.css" "out/css/app.css"
        RType.css
      = ((fetchPhase envC4 initSt "https://a.test/app.css").1, false) ∧
    (fetchPhase envC4 initSt "https://a.test/app.css").1.downloaded
      = initSt.downloaded ∧
    (fetchPhase envC4 initSt "https://a.test/app.css").1.files = initSt.files ∧
    (fetchPhase envC4 initSt "https://a.test/app.css").1.writeLog
      = initSt.writeLog :=
  c4_validation_failure envC4 initSt "https://a.test/app.css" "out/css/app.css"
    RType.css (strBytes "<html>404</html>") (by decide) (by decide) (by decide)
    (by decide)

/-! ### Claim C10 -/

/-- Concrete job for the C10 counterexample: the font URL answers 200 with
an empty body. -/
def envC10 : Env :=
  ⟨fun u => if u = "https://a.test/f.woff2" then some [] else none,
   fun _ c => c, fun _ => "h", "https://a.test/page", "out"⟩

/-- C10, counterexample.  The claim says any payload obtained with a
successful HTTP status is persisted for a font resource.  A 200 response
with an *empty* body is a payload obtained with a successful status, yet
`if not content` treats it as a failed fetch: nothing is persisted and the
reference is not rewritten. -/
theorem c10_counterexample :
    (handleRef envC10 initSt ⟨RefKind.fontPreload, "https://a.test/f.woff2"⟩).2
      = [⟨RefKind.fontPreload, "https://a.test/f.woff2", "https://a.test/f.woff2",
          "out/assets/fonts/f.woff2", none⟩] ∧
    (handleRef envC10 initSt ⟨RefKind.fontPreload, "https://a.test/f.woff2"⟩).1.files
      = [] := by decide

/-- C10, amended: for a font resource, any *nonempty* payload obtained with
status 200 is persisted to the fonts directory and the reference rewritten
to it, with no validator consulted — the theorem holds for every payload
`p`, including an HTML error page (see the witness). -/
theorem c10_amended (env : Env) (st : St) (raw : String) (p : List Nat)
    (h0 : urljoin env.pageUrl (pyStripStr raw) ∉ st.downloaded)
    (h1 : env.fetch (urljoin env.pageUrl (pyStripStr raw)) = some p)
    (h2 : p.isEmpty = false) :
    handleRef env st ⟨RefKind.fontPreload, raw⟩
      = (⟨urljoin env.pageUrl (pyStripStr raw) :: st.downloaded,
          (env.jobDir ++ "/assets/fonts/" ++
            sanitize_filename env.hsh (urljoin env.pageUrl (pyStripStr raw)) ".woff2",
           env.opt RType.font p) :: st.files,
          st.writeLog ++ [⟨urljoin env.pageUrl (pyStripStr raw),
            env.jobDir ++ "/assets/fonts/" ++
              sanitize_filename env.hsh (urljoin env.pageUrl (pyStripStr raw)) ".woff2",
            RType.font, p⟩],
          st.fetchLog ++ [urljoin env.pageUrl (pyStripStr raw)]⟩,
         [⟨RefKind.fontPreload, pyStripStr raw,
           urljoin env.pageUrl (pyStripStr raw),
           env.jobDir ++ "/assets/fonts/" ++
             sanitize_filename env.hsh (urljoin env.pageUrl (pyStripStr raw)) ".woff2",
           some ("assets/fonts/" ++
             sanitize_filename env.hsh (urljoin env.pageUrl (pyStripStr raw)) ".woff2")⟩]) := by
  have hfc : falsyContent (env.fetch (urljoin env.pageUrl (pyStripStr raw))) = false := by
    rw [h1]
    simpa [falsyContent] using h2
  simp only [handleRef, handleSimple]
  unfold download_resource
  rw [if_neg h0, fetchPhase_eq_direct env st (urljoin env.pageUrl (pyStripStr raw)) hfc]
  simp only [h1, h2, Bool.false_eq_true, if_false]
  simp [validatorFor]

/-- Concrete job for the C10 witness: the font URL answers 200 with an HTML
error page. -/
def envC10w : Env :=
  ⟨fun u => if u = "https://a.test/f.woff2" then some (strBytes "<html>404</html>")
    else none,
   fun _ c => c, fun _ => "h", "https://a.test/page", "out"⟩

/-- C10, witness: the amended theorem applied where the "font" payload is
an HTML error page — it is persisted to `assets/fonts/` and the preload
href rewritten, no validation in the way. -/
theorem c10_amended_witness :
    handleRef envC10w initSt ⟨RefKind.fontPreload, "https://a.test/f.woff2"⟩
      = (⟨["https://a.test/f.woff2"],
          [("out/assets/fonts/f.woff2", strBytes "<html>404</html>")],
          [⟨"https://a.test/f.woff2", "out/assets/fonts/f.woff2", RType.font,
            strBytes "<html>404</html>"⟩],
          ["https://a.test/f.woff2"]⟩,
         [⟨RefKind.fontPreload, "https://a.test/f.woff2", "https://a.test/f.woff2",
           "out/assets/fonts/f.woff2", some "assets/fonts/f.woff2"⟩]) :=
  (c10_amended envC10w initSt "https://a.test/f.woff2"
    (strBytes "<html>404</html>") (by decide) (by decide) (by decide)).trans
    (by decide)

/-! ## app/quality.py — QualityScorer

The scorer reads the finished output directory.  Its inputs are modelled
directly: the image directory as the list of file sizes (`None` when the
directory does not exist), the css directory as named text files, and
`index.html` as optional text.  Python floats are modelled as exact
rationals; the bounds proved below are robust to rounding since every
branch clamps with `max(0, ...)` and subtracts nonnegative penalties from
100 before truncating. -/

/-- Fuelled counter for Python `str.count` (non-overlapping occurrences,
left to right; the needles used by the scorer are nonempty). -/
def countSubF : Nat → List Char → List Char → Nat
  | 0, _, _ => 0
  | fuel + 1, text, pat =>
    match text with
    | [] => 0
    | c :: tl =>
      if pat.isPrefixOf (c :: tl) ∧ ¬ pat.isEmpty then
        1 + countSubF fuel ((c :: tl).drop pat.length) pat
      else countSubF fuel tl pat

/-- Model of `text.count(pat)` for nonempty `pat`. -/
def countSub (pat text : List Char) : Nat := countSubF text.length text pat

/-- Python `int(...)` on a rational: truncation toward zero. -/
def pyInt (q : ℚ) : ℤ := if 0 ≤ q then Int.floor q else -(Int.floor (-q))

/-- Model of `QualityScorer.check_images` from app/quality.py, as the category score
computed from the image directory listing (file sizes in bytes; `none`
models a missing directory). -/
def check_images_score (listing : Option (List Nat)) : ℤ :=
  match listing with
  | none => 100
  | some sizes =>
    let total := sizes.length
    let broken := (sizes.filter (fun sz => sz < 100)).length
    let oversized := (sizes.filter (fun sz => 1500000 < sz)).length
    if total = 0 then 100
    else
      pyInt (max 0 (100 -
        (((broken : ℚ) * 20 + (oversized : ℚ) * 5) / (total : ℚ) * 10)))

/-- Model of `QualityScorer.check_css` from app/quality.py: the category score
computed from the css directory listing (name and decoded text per file;
`none` models a missing directory).  A file is broken when its lower-cased
text contains `<html`. -/
def check_css_score (listing : Option (List (String × List Char))) : ℤ :=
  match listing with
  | none => 100
  | some files_ =>
    let cssFiles := files_.filter (fun f => (".css".toList).isSuffixOf f.1.toList)
    let total := cssFiles.length
    let broken := (cssFiles.filter
      (fun f => subIn ("<html".toList) (lowerChars f.2))).length
    if total = 0 then 100
    else pyInt (max 0 (100 - ((broken : ℚ) / (total : ℚ) * 100)))

/-- The tracker signatures `check_html` scans for. -/
def htmlTracers : List String := ["google-analytics", "fbq(", "gtag("]

/-- Model of `QualityScorer.check_html` from app/quality.py: 0 for a missing
`index.html`; otherwise 100 minus 2 points per empty `src`/`href`
reference (capped at 20) minus 5 points per tracker signature present,
floored at 0. -/
def check_html_score (content : Option (List Char)) : ℤ :=
  match content with
  | none => 0
  | some text =>
    let brokenRefs := countSub ("src=\"\"".toList) text
      + countSub ("href=\"\"".toList) text
    let d1 : ℤ := if 0 < brokenRefs then min 20 ((brokenRefs : ℤ) * 2) else 0
    let found := (htmlTracers.filter (fun t => subIn t.toList text)).length
    max 0 (100 - d1 - (found : ℤ) * 5)

/-- Model of `QualityScorer.calculate_overall_score` from app/quality.py: the
weighted sum (html 0.4, css 0.3, images 0.3) truncated to an integer. -/
def calculate_overall (hS cS iS : ℤ) : ℤ :=
  pyInt ((0.4 : ℚ) * (hS : ℚ) + (0.3 : ℚ) * (cS : ℚ) + (0.3 : ℚ) * (iS : ℚ))

theorem pyInt_bounds (q : ℚ) (h0 : 0 ≤ q) (h1 : q ≤ 100) :
    0 ≤ pyInt q ∧ pyInt q ≤ 100 := by
  unfold pyInt
  rw [if_pos h0]
  constructor
  · exact Int.floor_nonneg.mpr h0
  · have h2 : Int.floor q ≤ Int.floor (100 : ℚ) := Int.floor_le_floor h1
    simpa using h2

theorem check_images_score_bounds (listing : Option (List Nat)) :
    0 ≤ check_images_score listing ∧ check_images_score listing ≤ 100 := by
  cases listing with
  | none => simp [check_images_score]
  | some sizes =>
    simp only [check_images_score]
    split
    · norm_num
    · next htot =>
      have htpos : 0 < ((sizes.length : ℚ)) := by
        have : 0 < sizes.length := Nat.pos_of_ne_zero htot
        exact_mod_cast this
      have hx : 0 ≤ (((sizes.filter (fun sz => sz < 100)).length : ℚ) * 20 +
          ((sizes.filter (fun sz => 1500000 < sz)).length : ℚ) * 5)
            / (sizes.length : ℚ) * 10 := by positivity
      refine pyInt_bounds _ (le_max_left _ _) ?_
      rw [max_le_iff]
      constructor
      · norm_num
      · linarith

theorem check_css_score_bounds (listing : Option (List (String × List Char))) :
    0 ≤ check_css_score listing ∧ check_css_score listing ≤ 100 := by
  cases listing with
  | none => simp [check_css_score]
  | some files_ =>
    simp only [check_css_score]
    split
    · norm_num
    · next htot =>
      have htpos : 0 < (((files_.filter
          (fun f => (".css".toList).isSuffixOf f.1.toList)).length : ℚ)) := by
        have : 0 < (files_.filter
            (fun f => (".css".toList).isSuffixOf f.1.toList)).length :=
          Nat.pos_of_ne_zero htot
        exact_mod_cast this
      have hx : 0 ≤ (((files_.filter
          (fun f => (".css".toList).isSuffixOf f.1.toList)).filter
            (fun f => subIn ("<html".toList) (lowerChars f.2))).length : ℚ)
          / ((files_.filter
            (fun f => (".css".toList).isSuffixOf f.1.toList)).length : ℚ)
          * 100 := by positivity
      refine pyInt_bounds _ (le_max_left _ _) ?_
      rw [max_le_iff]
      constructor
      · norm_num
      · linarith

theorem check_html_score_bounds (content : Option (List Char)) :
    0 ≤ check_html_score content ∧ check_html_score content ≤ 100 := by
  cases content with
  | none => simp [check_html_score]
  | some text =>
    simp only [check_html_score]
    constructor
    · exact le_max_left _ _
    · rw [max_le_iff]
      constructor
      · norm_num
      · have hd1 : (0 : ℤ) ≤ (if 0 < countSub ("src=\"\"".toList) text
            + countSub ("href=\"\"".toList) text then
              min 20 (((countSub ("src=\"\"".toList) text
                + countSub ("href=\"\"".toList) text : Nat) : ℤ) * 2)
            else 0) := by
          split
          · next hbr =>
            have : (0 : ℤ) ≤ ((countSub ("src=\"\"".toList) text
                + countSub ("href=\"\"".toList) text : Nat) : ℤ) * 2 := by
              positivity
            omega
          · exact le_refl 0
        have hf : (0 : ℤ) ≤ ((htmlTracers.filter
            (fun t => subIn t.toList text)).length : ℤ) * 5 := by positivity
        linarith

/-- C8, confirmed: every category score and the overall score produced by
the quality scorer is an integer in `[0, 100]`, for every possible output
directory contents. -/
theorem c8_score_bounds (imgs : Option (List Nat))
    (css : Option (List (String × List Char))) (html : Option (List Char)) :
    (0 ≤ check_images_score imgs ∧ check_images_score imgs ≤ 100) ∧
    (0 ≤ check_css_score css ∧ check_css_score css ≤ 100) ∧
    (0 ≤ check_html_score html ∧ check_html_score html ≤ 100) ∧
    (0 ≤ calculate_overall (check_html_score html) (check_css_score css)
        (check_images_score imgs) ∧
     calculate_overall (check_html_score html) (check_css_score css)
        (check_images_score imgs) ≤ 100) := by
  obtain ⟨i0, i1⟩ := check_images_score_bounds imgs
  obtain ⟨c0, c1⟩ := check_css_score_bounds css
  obtain ⟨h0, h1⟩ := check_html_score_bounds html
  refine ⟨⟨i0, i1⟩, ⟨c0, c1⟩, ⟨h0, h1⟩, ?_⟩
  unfold calculate_overall
  have hq0 : (0 : ℚ) ≤ (0.4 : ℚ) * ((check_html_score html : ℚ))
      + (0.3 : ℚ) * ((check_css_score css : ℚ))
      + (0.3 : ℚ) * ((check_images_score imgs : ℚ)) := by
    have hh : (0 : ℚ) ≤ ((check_html_score html : ℚ)) := by exact_mod_cast h0
    have hc : (0 : ℚ) ≤ ((check_css_score css : ℚ)) := by exact_mod_cast c0
    have hi : (0 : ℚ) ≤ ((check_images_score imgs : ℚ)) := by exact_mod_cast i0
    linarith
  have hq1 : (0.4 : ℚ) * ((check_html_score html : ℚ))
      + (0.3 : ℚ) * ((check_css_score css : ℚ))
      + (0.3 : ℚ) * ((check_images_score imgs : ℚ)) ≤ 100 := by
    have hh : ((check_html_score html : ℚ)) ≤ 100 := by exact_mod_cast h1
    have hc : ((check_css_score css : ℚ)) ≤ 100 := by exact_mod_cast c1
    have hi : ((check_images_score imgs : ℚ)) ≤ 100 := by exact_mod_cast i1
    linarith
  exact pyInt_bounds _ hq0 hq1

/-! ### Claim C9 -/

/-- Concrete job for the C9 scenario: the page lives at the site root, the
stylesheet at `https://x.test/css/site.css` contains `url(icon.woff)`, and
only `https://x.test/css/icon.woff` (resolution against the stylesheet's
URL, not the page's) answers with font bytes. -/
def envC9 : Env :=
  ⟨fun u => if u = "https://x.test/css/icon.woff" then some (strBytes "FONTDATA")
    else none,
   fun _ c => c, fun _ => "h", "https://x.test/page", "out"⟩

/-- The C9 starting state: the stylesheet has been persisted at
`out/css/site.css`. -/
def stC9 : St := ⟨[], [("out/css/site.css", strBytes "url(icon.woff)")], [], []⟩

/-- C9, confirmed: stylesheet post-processing of a persisted stylesheet
containing `url(icon.woff)` whose own URL is `https://x.test/css/site.css`
fetches exactly `https://x.test/css/icon.woff` — the reference resolved
against the stylesheet's URL, not the page's — and, the fetch succeeding,
rewrites the stylesheet text to `url(../assets/fonts/icon.woff)` and
persists the font beside it. -/
theorem c9_css_url_resolution :
    (process_css_urls envC9 stC9 "out/css/site.css" "https://x.test/css/site.css").1.fetchLog
      = ["https://x.test/css/icon.woff"] ∧
    lookupFile (process_css_urls envC9 stC9 "out/css/site.css"
        "https://x.test/css/site.css").1.files "out/css/site.css"
      = some (strBytes "url(../assets/fonts/icon.woff)") ∧
    lookupFile (process_css_urls envC9 stC9 "out/css/site.css"
        "https://x.test/css/site.css").1.files "out/assets/fonts/icon.woff"
      = some (strBytes "FONTDATA") := by decide

end Clonado
